import Mathlib

/-!
Verification of the Great Dalmuti rules engine (`src/game/deck.ts`,
`src/game/moves.ts`, `src/game/phases.ts`, `src/game/DalmutiGame.ts`).

The TypeScript state is embedded shallowly:
* player ids are the strings `"0"`, …, `"N-1"`; we model them as the `Nat`
  index into a `List PlayerState` (so `Object.keys(G.players)` becomes
  `List.range G.players.length`, matching the ascending integer-key
  enumeration order of JS objects);
* card ids stay `String`s, built with the same format strings as the source;
* each move takes the state plus its arguments and returns `MoveResult`:
  `.valid s` for an accepted move producing state `s`, `.invalid s` for a
  rejected move (the carried state is the state at the `return INVALID_MOVE`
  program point, so "no partial effects" is a real theorem, not baked in);
* the boardgame.io `random.Shuffle` results are passed as explicit arguments
  (the shuffled deck / shuffled orders), since randomness is external input;
* JS `Array.prototype.sort` is stable, so it is modelled by `List.mergeSort`.
-/

namespace Dalmuti

/-- A card: `{ rank: 0..12, id }`, rank 0 is the wild Jester (`types.ts`). -/
structure Card where
  rank : Nat
  id : String
deriving DecidableEq, Repr

/-- Per-player state (`types.ts` `PlayerState`). -/
structure PlayerState where
  hand : List Card
  socialRank : Option Nat
  name : String
  finished : Bool
  finishPosition : Option Nat
deriving DecidableEq, Repr

/-- A pending tax transfer (`types.ts` `TaxDebt`). -/
structure TaxDebt where
  fromPlayerID : Nat
  toPlayerID : Nat
  count : Nat
  offeredCards : List Card
deriving DecidableEq, Repr

/-- The open trick (`types.ts` `Trick`). -/
structure Trick where
  cards : List Card
  rank : Nat
  count : Nat
  playedBy : Nat
deriving DecidableEq, Repr

/-- The authoritative game state (`types.ts` `DalmutiState`).
`players` is indexed by the numeric player id. -/
structure DalmutiState where
  players : List PlayerState
  currentTrick : Option Trick
  lastPlayerToPlay : Option Nat
  finishOrder : List Nat
  taxDebts : List TaxDebt
  passedPlayers : List Nat
  roundNumber : Nat
  revolutionDeclaredBy : Option Nat
  isGreaterRevolution : Bool
  seatOrder : List Nat
  pendingNewTrick : Bool
  readyPlayers : List Nat
  roundOverDone : Bool
deriving DecidableEq, Repr

/-- Placeholder player used as the `getD` default; theorems always carry
in-range hypotheses so it never actually matters. -/
def defaultPlayer : PlayerState := ⟨[], none, "", false, none⟩

/-- Lookup of `G.players[id]`. -/
def playerAt (G : DalmutiState) (i : Nat) : PlayerState :=
  G.players.getD i defaultPlayer

/-- Outcome of a move: `.valid` = updated state, `.invalid` = the
`INVALID_MOVE` signal (carrying the state as of the rejection point). -/
inductive MoveResult where
  | valid : DalmutiState → MoveResult
  | invalid : DalmutiState → MoveResult
deriving DecidableEq, Repr

-- ---------------------------------------------------------------------------
-- Deck builder (`deck.ts`)
-- ---------------------------------------------------------------------------

/-- `buildDeck()` from `deck.ts`: 2 Jesters then ranks 1–12, rank `r`
having `r` copies, with a running `seq` counter in the ids. -/
def buildDeck : List Card :=
  let afterJesters : List Card × Nat :=
    (List.range 2).foldl
      (fun acc _ => (acc.1 ++ [⟨0, s!"jester-{acc.2}"⟩], acc.2 + 1))
      ([], 0)
  let final : List Card × Nat :=
    (List.range 12).foldl
      (fun acc r =>
        let rank := r + 1
        (List.range rank).foldl
          (fun acc2 copy =>
            (acc2.1 ++ [⟨rank, s!"r{rank}-{copy}-{acc2.2}"⟩], acc2.2 + 1))
          acc)
      afterJesters
  final.1

-- ---------------------------------------------------------------------------
-- Play-phase moves (`moves.ts`)
-- ---------------------------------------------------------------------------

/-- `markTrickWonIfComplete` from `moves.ts`: raise `pendingNewTrick` when
every active player other than the last to play has passed. -/
def markTrickWonIfComplete (G : DalmutiState) : DalmutiState :=
  match G.currentTrick, G.lastPlayerToPlay with
  | some _, some lp =>
    if ((((List.range G.players.length).filter
          (fun i => !(playerAt G i).finished)).filter
          (fun i => i != lp && !(G.passedPlayers.contains i))).length = 0) then
      { G with pendingNewTrick := true }
    else G
  | _, _ => G

/-- The id-lookup loop of `playCards`/`giveBackCards`: for each requested id,
`hand.find(c => c.id === id)`; the whole move is invalid if any id is
missing. -/
def findCards (hand : List Card) : List String → Option (List Card)
  | [] => some []
  | i :: rest =>
    match hand.find? (fun c => c.id == i), findCards hand rest with
    | some c, some cs => some (c :: cs)
    | _, _ => none

/-- The mutation tail of `playCards` (everything after validation). The
source assigns the shrunken hand, then — when the hand emptied — overwrites
the same player entry with `finished`/`finishPosition` set and pushes the id
onto the finish order; the two consecutive writes to the same slot are fused
here into one `set`. -/
def applyPlay (G : DalmutiState) (pid : Nat) (player : PlayerState)
    (cardIds : List String) (playedCards : List Card) (playedRank : Nat) :
    DalmutiState :=
  markTrickWonIfComplete
    (if (player.hand.filter (fun c => !(cardIds.contains c.id))).length = 0 then
      { G with
        players := G.players.set pid
          { player with
            hand := player.hand.filter (fun c => !(cardIds.contains c.id))
            finished := true
            finishPosition := some (G.finishOrder.length + 1) }
        currentTrick := some ⟨playedCards, playedRank, playedCards.length, pid⟩
        lastPlayerToPlay := some pid
        passedPlayers := []
        finishOrder := G.finishOrder ++ [pid] }
    else
      { G with
        players := G.players.set pid
          { player with
            hand := player.hand.filter (fun c => !(cardIds.contains c.id)) }
        currentTrick := some ⟨playedCards, playedRank, playedCards.length, pid⟩
        lastPlayerToPlay := some pid
        passedPlayers := [] })

/-- `playCards` from `moves.ts` (the acting player is `ctx.currentPlayer`). -/
def playCards (G : DalmutiState) (pid : Nat) (cardIds : List String) :
    MoveResult :=
  match G.players.get? pid with
  | none => .invalid G
  | some player =>
    if cardIds.length = 0 then .invalid G else
    match findCards player.hand cardIds with
    | none => .invalid G
    | some playedCards =>
      let nonJesters := playedCards.filter (fun c => c.rank != 0)
      if ((nonJesters.map (fun c => c.rank)).dedup).length > 1 then .invalid G else
      let playedRank : Nat :=
        match nonJesters with
        | [] => 13
        | c :: _ => c.rank
      match G.currentTrick with
      | some trick =>
        if playedCards.length != trick.count then .invalid G
        else if trick.rank ≤ playedRank then .invalid G
        else .valid (applyPlay G pid player cardIds playedCards playedRank)
      | none => .valid (applyPlay G pid player cardIds playedCards playedRank)

/-- `pass` from `moves.ts`. -/
def passMove (G : DalmutiState) (pid : Nat) : MoveResult :=
  match G.currentTrick with
  | none => .invalid G
  | some _ =>
    .valid (markTrickWonIfComplete { G with passedPlayers := G.passedPlayers ++ [pid] })

-- ---------------------------------------------------------------------------
-- Tax-phase moves (`moves.ts`)
-- ---------------------------------------------------------------------------

/-- `markReady` from `moves.ts`: idempotent insertion into `readyPlayers`
(the JS guard `!callerID || !G.players[callerID]` becomes an index-range
check). -/
def markReady (G : DalmutiState) (callerID : Nat) : MoveResult :=
  if callerID < G.players.length then
    if G.readyPlayers.contains callerID then .valid G
    else .valid { G with readyPlayers := G.readyPlayers ++ [callerID] }
  else .invalid G

/-- Append cards to the hand of player `i`. -/
def pushToHand (ps : List PlayerState) (i : Nat) (cs : List Card) :
    List PlayerState :=
  ps.set i
    { ps.getD i defaultPlayer with hand := (ps.getD i defaultPlayer).hand ++ cs }

/-- The staged-card return loop of `declareRevolution`: every debt's
`offeredCards` go back to that debt's payer. -/
def returnStaged (ps : List PlayerState) : List TaxDebt → List PlayerState
  | [] => ps
  | d :: rest =>
    if d.offeredCards.length > 0 then
      returnStaged (pushToHand ps d.fromPlayerID d.offeredCards) rest
    else returnStaged ps rest

/-- The `order.forEach((id, index) => players[id].socialRank = index + 1)`
loop used by `startGame`, `declareRevolution` and `playPhase.onEnd`. -/
def assignRanks (ps : List PlayerState) (order : List Nat) : List PlayerState :=
  order.enum.foldl
    (fun acc pr =>
      acc.set pr.2 { acc.getD pr.2 defaultPlayer with socialRank := some (pr.1 + 1) })
    ps

/-- The Jokers counted from the caller's own auto-staged tax payment
(`myDebt`/`stagedJokers` in `declareRevolution`). -/
def stagedJokers (G : DalmutiState) (callerID : Nat) : Nat :=
  match G.taxDebts.find? (fun d => d.fromPlayerID == callerID) with
  | some d => (d.offeredCards.filter (fun c => c.rank == 0)).length
  | none => 0

/-- `declareRevolution` from `moves.ts`. -/
def declareRevolution (G : DalmutiState) (callerID : Nat) : MoveResult :=
  match G.players.get? callerID with
  | none => .invalid G
  | some player =>
    let n := G.players.length
    if (player.hand.filter (fun c => c.rank == 0)).length +
        stagedJokers G callerID < 2 then .invalid G else
    let players1 := returnStaged G.players G.taxDebts
    let isGreater :=
      decide (n ≤ G.finishOrder.length) && G.finishOrder.getD (n - 1) n == callerID
    if isGreater then
      let newOrder := G.finishOrder.reverse
      .valid { G with
        players := assignRanks players1 newOrder,
        finishOrder := newOrder,
        isGreaterRevolution := true,
        taxDebts := [],
        revolutionDeclaredBy := some callerID }
    else
      .valid { G with
        players := players1,
        taxDebts := [],
        revolutionDeclaredBy := some callerID }

/-- `giveBackCards` from `moves.ts`. The found debt is mutated in place in
the source, modelled by updating it at its index. -/
def giveBackCards (G : DalmutiState) (callerID : Nat) (cardIds : List String) :
    MoveResult :=
  match G.taxDebts.findIdx?
      (fun d => d.toPlayerID == callerID && d.offeredCards.length > 0) with
  | none => .invalid G
  | some di =>
    let debt := G.taxDebts.getD di ⟨0, 0, 0, []⟩
    if cardIds.length != debt.count then .invalid G else
    let receiver := G.players.getD callerID defaultPlayer
    match findCards receiver.hand cardIds with
    | none => .invalid G
    | some giveBack =>
      let players1 := G.players.set callerID
        { receiver with
          hand := (receiver.hand.filter (fun c => !(cardIds.contains c.id)))
            ++ debt.offeredCards }
      let payer := players1.getD debt.fromPlayerID defaultPlayer
      let players2 := players1.set debt.fromPlayerID
        { payer with hand := payer.hand ++ giveBack }
      let debts2 := G.taxDebts.set di { debt with offeredCards := [], count := 0 }
      .valid { G with players := players2, taxDebts := debts2 }

-- ---------------------------------------------------------------------------
-- Round setup: `startGame` and `advanceRound` (`moves.ts`)
-- ---------------------------------------------------------------------------

/-- `G.players[id].hand = []` for every player. -/
def clearHands (ps : List PlayerState) : List PlayerState :=
  ps.map (fun p => { p with hand := [] })

/-- `deck.forEach((card, i) => players[i % n].hand.push(card))`. -/
def dealDeck (ps : List PlayerState) (n : Nat) (deck : List Card) :
    List PlayerState :=
  deck.enum.foldl (fun acc pr => pushToHand acc (pr.1 % n) [pr.2]) ps

/-- Rank used when sorting for taxation: Jokers count as 13. -/
def taxRank (c : Card) : Nat := if c.rank = 0 then 13 else c.rank

/-- The JS comparator `(a, b) => ra - rb` on tax ranks, as a stable `≤`. -/
def taxLe (a b : Card) : Bool := decide (taxRank a ≤ taxRank b)

/-- The auto-staging loop shared by `startGame` and `advanceRound`: for each
debt, sort the payer's hand by tax rank, take the first `count` cards out of
the hand and into `offeredCards`. -/
def stageDebts (ps : List PlayerState) :
    List TaxDebt → List PlayerState × List TaxDebt
  | [] => (ps, [])
  | d :: rest =>
    let payer := ps.getD d.fromPlayerID defaultPlayer
    let sortedHand := payer.hand.mergeSort taxLe
    let bestCards := sortedHand.take d.count
    let bestIds := bestCards.map (fun c => c.id)
    let ps1 := ps.set d.fromPlayerID
      { payer with hand := payer.hand.filter (fun c => !(bestIds.contains c.id)) }
    let res := stageDebts ps1 rest
    (res.1, { d with offeredCards := bestCards } :: res.2)

/-- `startGame` from `moves.ts`. The two `random.Shuffle` results and the
shuffled deck are passed in as explicit inputs; `n` is `ctx.numPlayers` and
`pid` is `ctx.currentPlayer`. -/
def startGame (G : DalmutiState) (pid : Nat) (n : Nat)
    (seatShuffled initialOrder : List Nat) (shuffledDeck : List Card) :
    MoveResult :=
  if pid != 0 then .invalid G else
  let players1 := assignRanks G.players initialOrder
  let players2 := dealDeck (clearHands players1) n shuffledDeck
  let debts :=
    (if 2 ≤ n then
      [(⟨initialOrder.getD (n - 1) 0, initialOrder.getD 0 0, 2, []⟩ : TaxDebt)]
    else []) ++
    (if 4 ≤ n then
      [(⟨initialOrder.getD (n - 2) 0, initialOrder.getD 1 0, 1, []⟩ : TaxDebt)]
    else [])
  let staged := stageDebts players2 debts
  .valid { G with
    seatOrder := seatShuffled,
    finishOrder := initialOrder,
    players := staged.1,
    taxDebts := staged.2 }

/-- `advanceRound` from `moves.ts` (`n` is `ctx.numPlayers`; the shuffled
deck is an explicit input). Never returns `INVALID_MOVE`. -/
def advanceRound (G : DalmutiState) (n : Nat) (shuffledDeck : List Card) :
    MoveResult :=
  let G1 := { G with
    currentTrick := (none : Option Trick),
    lastPlayerToPlay := (none : Option Nat),
    passedPlayers := ([] : List Nat),
    pendingNewTrick := false,
    revolutionDeclaredBy := (none : Option Nat),
    isGreaterRevolution := false,
    readyPlayers := ([] : List Nat) }
  let players2 := dealDeck (clearHands G1.players) n shuffledDeck
  let order := G1.finishOrder
  let debts :=
    (if 2 ≤ order.length then
      [(⟨order.getD (n - 1) 0, order.getD 0 0, 2, []⟩ : TaxDebt)]
    else []) ++
    (if 4 ≤ order.length then
      [(⟨order.getD (n - 2) 0, order.getD 1 0, 1, []⟩ : TaxDebt)]
    else [])
  let staged := stageDebts players2 debts
  let players4 := staged.1.map (fun p => { p with finished := false, finishPosition := (none : Option Nat) })
  .valid { G1 with players := players4, taxDebts := staged.2, roundOverDone := true }

-- ---------------------------------------------------------------------------
-- Phase / turn hooks (`phases.ts`)
-- ---------------------------------------------------------------------------

/-- `playPhase.turn.onBegin`: clear the trick and pass set only when a trick
completion was signalled. -/
def playTurnOnBegin (G : DalmutiState) : DalmutiState :=
  if G.pendingNewTrick then
    { G with currentTrick := none, passedPlayers := [], pendingNewTrick := false }
  else G

/-- `playPhase.turn.endIf`: `some leader` means "trick won, `leader` leads
the next trick"; `none` means the turn ends normally. -/
def playTurnEndIf (G : DalmutiState) : Option Nat :=
  match G.currentTrick with
  | none => none
  | some _ =>
    let activePlayers :=
      (List.range G.players.length).filter (fun i => !(playerAt G i).finished)
    let stillNeedToRespond := activePlayers.filter
      (fun i => !(G.lastPlayerToPlay == some i) && !(G.passedPlayers.contains i))
    match G.lastPlayerToPlay with
    | none => none
    | some lp =>
      if stillNeedToRespond.length = 0 then
        let nextLeader :=
          if (playerAt G lp).finished then
            let winnerRank := (playerAt G lp).socialRank.getD 0
            let unfinished := ((List.range G.players.length).filter
                (fun i => !(playerAt G i).finished)).map
                (fun i => (i, (playerAt G i).socialRank.getD 0))
            let sortedUnfinished :=
              unfinished.mergeSort (fun a b => decide (a.2 ≤ b.2))
            if sortedUnfinished.length > 0 then
              match sortedUnfinished.find? (fun pr => decide (winnerRank < pr.2)) with
              | some pr => pr.1
              | none => (sortedUnfinished.getD 0 (lp, 0)).1
            else lp
          else lp
        some nextLeader
      else none

/-- The bounded skip loop of `playPhase.turn.order.next`, with an explicit
step counter: returns `(next, stepsUsed)`. `remaining = len - attempts`. -/
def skipFrom (isFinishedAt : Nat → Bool) (len : Nat) :
    Nat → Nat → Nat × Nat
  | next, 0 => (next, 0)
  | next, remaining + 1 =>
    if isFinishedAt next then
      let r := skipFrom isFinishedAt len ((next + 1) % len) remaining
      (r.1, r.2 + 1)
    else (next, 0)

/-- `playPhase.turn.order.next`: advance one position, then skip finished
players, the search bounded by `playOrder.length` attempts. -/
def orderNext (G : DalmutiState) (playOrder : List Nat) (pos : Nat) : Nat :=
  (skipFrom (fun i => (playerAt G (playOrder.getD i 0)).finished)
    playOrder.length ((pos + 1) % playOrder.length) playOrder.length).1

/-- Number of loop iterations `playPhase.turn.order.next` performs. -/
def orderNextSteps (G : DalmutiState) (playOrder : List Nat) (pos : Nat) : Nat :=
  (skipFrom (fun i => (playerAt G (playOrder.getD i 0)).finished)
    playOrder.length ((pos + 1) % playOrder.length) playOrder.length).2

-- ---------------------------------------------------------------------------
-- Player-view projection (`DalmutiGame.ts` `playerView`)
-- ---------------------------------------------------------------------------

/-- `playerView` from `DalmutiGame.ts`; `none` is the spectator
(`playerID === null`). -/
def playerView (G : DalmutiState) (viewerID : Option Nat) : DalmutiState :=
  match viewerID with
  | none => G
  | some v =>
    let sanitizedPlayers := (G.players.enum).map (fun pr =>
      if pr.1 = v then pr.2
      else { pr.2 with hand := ((List.range pr.2.hand.length).map
              (fun i => (⟨1, s!"hidden-{pr.1}-{i}"⟩ : Card))) })
    let sanitizedDebts := G.taxDebts.map (fun d =>
      if d.toPlayerID = v then { d with offeredCards := [] } else d)
    { G with players := sanitizedPlayers, taxDebts := sanitizedDebts }

/-- The effective rank of a played set (`§4.2` of the spec, and the
`playedRank` computation inside `playCards`): the first non-Joker's rank,
or 13 when every card is a Joker. -/
def effectiveRank (cs : List Card) : Nat :=
  match cs.filter (fun c => c.rank != 0) with
  | [] => 13
  | c :: _ => c.rank

/-- The combined multiset of cards held in all players' hands and staged in
all debts' `offeredCards` — the quantity the tax phase must conserve. -/
def totalCards (G : DalmutiState) : Multiset Card :=
  (G.players.map (fun p => (p.hand : Multiset Card))).sum +
  (G.taxDebts.map (fun d => (d.offeredCards : Multiset Card))).sum

/-- The state carried by a move result (accepted or rejected). -/
def resultState : MoveResult → DalmutiState
  | .valid s => s
  | .invalid s => s

/-- Whether a move was accepted. -/
def isAccepted : MoveResult → Bool
  | .valid _ => true
  | .invalid _ => false

-- ---------------------------------------------------------------------------
-- Concrete states used by witnesses and counterexamples
-- ---------------------------------------------------------------------------

/-- The empty state (no players). -/
def emptyG : DalmutiState :=
  ⟨[], none, none, [], [], [], 1, none, false, [], false, [], false⟩

/-- Two players, open play phase, no trick. -/
def exampleG : DalmutiState :=
  ⟨[⟨[⟨5, "a"⟩, ⟨6, "b"⟩], some 1, "P1", false, none⟩,
    ⟨[⟨7, "c"⟩], some 2, "P2", false, none⟩],
   none, none, [], [], [], 1, none, false, [0, 1], false, [], false⟩

/-- Two players, both already finished. -/
def exampleGFin : DalmutiState :=
  ⟨[⟨[], some 1, "P1", true, some 1⟩, ⟨[], some 2, "P2", true, some 2⟩],
   none, none, [0, 1], [], [], 1, none, false, [0, 1], false, [], false⟩

/-- The state produced by `playCards exampleG 0 ["a"]`. -/
def exampleG2 : DalmutiState := resultState (playCards exampleG 0 ["a"])

/-- A tax-phase state: player 1 owes player 0 two cards, already staged. -/
def exampleGTax : DalmutiState :=
  ⟨[⟨[⟨1, "x"⟩, ⟨2, "y"⟩], some 1, "P1", false, none⟩,
    ⟨[⟨9, "z"⟩], some 2, "P2", false, none⟩],
   none, none, [0, 1], [⟨1, 0, 2, [⟨3, "s"⟩, ⟨4, "t"⟩]⟩], [], 2,
   none, false, [0, 1], false, [], false⟩

/-- The state produced by `giveBackCards exampleGTax 0 ["x", "y"]`. -/
def exampleGTax2 : DalmutiState :=
  resultState (giveBackCards exampleGTax 0 ["x", "y"])

/-- A tax-phase state where player 0 holds both Jokers. -/
def exampleGRev : DalmutiState :=
  ⟨[⟨[⟨0, "j1"⟩, ⟨0, "j2"⟩], some 1, "P1", false, none⟩,
    ⟨[⟨5, "q"⟩], some 2, "P2", false, none⟩],
   none, none, [0, 1], [], [], 2, none, false, [0, 1], false, [], false⟩

/-- The state produced by `declareRevolution exampleGRev 0`. -/
def exampleGRev2 : DalmutiState := resultState (declareRevolution exampleGRev 0)

/-- A play-phase state mid-trick: player 0 led a single 5, player 1 passed,
and the trick-completion signal is already up. -/
def exampleGTrick : DalmutiState :=
  ⟨[⟨[⟨6, "b"⟩], some 1, "P1", false, none⟩,
    ⟨[⟨7, "c"⟩], some 2, "P2", false, none⟩],
   some ⟨[⟨5, "a"⟩], 5, 1, 0⟩, some 0, [], [], [1], 1, none, false, [0, 1],
   true, [], false⟩

end Dalmuti

namespace Dalmuti

/-- C9: `buildDeck()` returns exactly 80 cards: 2 wild (rank 0) and, for each
rank `r` in 1..12, exactly `r` cards of rank `r`, all ids distinct. -/
theorem buildDeck_spec :
    buildDeck.length = 80 ∧
    (buildDeck.filter (fun c => c.rank = 0)).length = 2 ∧
    ((List.range 12).all
      (fun r => (buildDeck.filter (fun c => c.rank = r + 1)).length = r + 1)) = true ∧
    (buildDeck.map (fun c => c.id)).Nodup := by
  refine ⟨by decide, by decide, by decide, by decide⟩

/-- C1: whenever an action of the exposed surface is rejected, the state
carried by the rejection signal is exactly the input state — every rejection
happens before any mutation (`advanceRound` never rejects at all). -/
theorem rejected_action_leaves_state_unchanged
    (G : DalmutiState) (pid n : Nat) (cardIds : List String)
    (seatShuffled initialOrder : List Nat) (deck : List Card)
    (s : DalmutiState) :
    (startGame G pid n seatShuffled initialOrder deck = .invalid s → s = G) ∧
    (playCards G pid cardIds = .invalid s → s = G) ∧
    (passMove G pid = .invalid s → s = G) ∧
    (markReady G pid = .invalid s → s = G) ∧
    (declareRevolution G pid = .invalid s → s = G) ∧
    (giveBackCards G pid cardIds = .invalid s → s = G) ∧
    (advanceRound G n deck ≠ .invalid s) := by
  refine ⟨?_, ?_, ?_, ?_, ?_, ?_, ?_⟩ <;> intro h
  · unfold startGame at h
    split at h
    · exact (MoveResult.invalid.inj h).symm
    · exact MoveResult.noConfusion h
  · unfold playCards at h
    repeat' (first | split at h | simp only [] at h)
    all_goals
      first
      | exact (MoveResult.invalid.inj h).symm
      | exact MoveResult.noConfusion h
  · unfold passMove at h
    split at h
    · exact (MoveResult.invalid.inj h).symm
    · exact MoveResult.noConfusion h
  · unfold markReady at h
    repeat' (first | split at h | simp only [] at h)
    all_goals
      first
      | exact (MoveResult.invalid.inj h).symm
      | exact MoveResult.noConfusion h
  · unfold declareRevolution at h
    repeat' (first | split at h | simp only [] at h)
    all_goals
      first
      | exact (MoveResult.invalid.inj h).symm
      | exact MoveResult.noConfusion h
  · unfold giveBackCards at h
    repeat' (first | split at h | simp only [] at h)
    all_goals
      first
      | exact (MoveResult.invalid.inj h).symm
      | exact MoveResult.noConfusion h
  · unfold advanceRound at h
    exact MoveResult.noConfusion h

/-- C1 witness: passing with no open trick is rejected on the empty state and
the theorem yields the unchanged state. -/
theorem rejected_action_unchanged_witness :
    passMove emptyG 0 = MoveResult.invalid emptyG ∧ emptyG = emptyG :=
  ⟨rfl, (rejected_action_leaves_state_unchanged emptyG 0 0 [] [] [] []
    emptyG).2.2.1 rfl⟩

/-- The skip loop of `order.next` uses at most `fuel` iterations. -/
theorem skipFrom_steps_le (f : Nat → Bool) (len : Nat) :
    ∀ fuel next, (skipFrom f len next fuel).2 ≤ fuel := by
  intro fuel
  induction fuel with
  | zero => intro next; simp [skipFrom]
  | succ k ih =>
    intro next
    unfold skipFrom
    split
    · exact Nat.succ_le_succ (ih _)
    · exact Nat.zero_le _

/-- When every position tests finished, the skip loop consumes all its fuel
and lands back on `(next + fuel) % len`. -/
theorem skipFrom_all_finished (f : Nat → Bool) (len : Nat)
    (hf : ∀ i < len, f i = true) :
    ∀ fuel next, next < len →
      (skipFrom f len next fuel).1 = (next + fuel) % len := by
  intro fuel
  induction fuel with
  | zero =>
    intro next hn
    simp [skipFrom, Nat.mod_eq_of_lt hn]
  | succ k ih =>
    intro next hn
    have hlen : 0 < len := Nat.lt_of_le_of_lt (Nat.zero_le _) hn
    unfold skipFrom
    rw [if_pos (hf next hn)]
    show (skipFrom f len ((next + 1) % len) k).1 = (next + (k + 1)) % len
    rw [ih ((next + 1) % len) (Nat.mod_lt _ hlen), Nat.mod_add_mod]
    congr 1
    omega

/-- C7 (amended): the finished-player skip search in
`playPhase.turn.order.next` performs at most `playOrder.length` iterations,
and when every player in the order is finished it falls back to the plain
one-step advance `(pos + 1) % playOrder.length` (the skip search leaves its
starting candidate unchanged). -/
theorem orderNext_bounded_skip (G : DalmutiState) (playOrder : List Nat)
    (pos : Nat) :
    orderNextSteps G playOrder pos ≤ playOrder.length ∧
    (0 < playOrder.length →
      (∀ i < playOrder.length,
        (playerAt G (playOrder.getD i 0)).finished = true) →
      orderNext G playOrder pos = (pos + 1) % playOrder.length) := by
  constructor
  · exact skipFrom_steps_le _ _ _ _
  · intro hlen hall
    unfold orderNext
    rw [skipFrom_all_finished _ _ hall _ _ (Nat.mod_lt _ hlen),
      Nat.mod_add_mod, Nat.add_mod_right]

/-- C7 witness: two finished players, the loop runs at most 2 steps and the
all-finished fallback returns position `(0 + 1) % 2`. -/
theorem orderNext_bounded_skip_witness :
    orderNextSteps exampleGFin [0, 1] 0 ≤ 2 ∧
    orderNext exampleGFin [0, 1] 0 = (0 + 1) % 2 :=
  ⟨(orderNext_bounded_skip exampleGFin [0, 1] 0).1,
   (orderNext_bounded_skip exampleGFin [0, 1] 0).2 (by decide) (by decide)⟩

/-- Pointwise description of the projected player list of `playerView`. -/
theorem playerView_playerAt (G : DalmutiState) (v p : Nat)
    (hp : p < G.players.length) :
    playerAt (playerView G (some v)) p =
      (if p = v then playerAt G p
       else { playerAt G p with
              hand := ((List.range (playerAt G p).hand.length).map
                (fun i => (⟨1, s!"hidden-{p}-{i}"⟩ : Card))) }) := by
  have hlen : p < ((G.players.enum).map (fun pr =>
      if pr.1 = v then pr.2
      else { pr.2 with hand := ((List.range pr.2.hand.length).map
              (fun i => (⟨1, s!"hidden-{pr.1}-{i}"⟩ : Card))) })).length := by
    simpa [List.enum_length] using hp
  unfold playerAt playerView
  simp only
  rw [List.getD_eq_getElem _ _ hlen, List.getElem_map,
    List.getElem_enum, List.getD_eq_getElem _ _ hp]

/-- C8: for a non-spectator viewer, `playerView` replaces every other
player's hand of length `k` by `k` placeholder cards of rank 1 with
synthetic ids, keeps the viewer's own record intact, empties `offeredCards`
of every debt whose receiver is the viewer while keeping its `count` (and
both endpoints), leaves other debts alone, and a spectator (`playerID ===
null`) gets the unredacted state. -/
theorem playerView_spec (G : DalmutiState) (v : Nat)
    (hv : v < G.players.length) :
    playerView G none = G ∧
    (playerView G (some v)).players.length = G.players.length ∧
    playerAt (playerView G (some v)) v = playerAt G v ∧
    (∀ p, p < G.players.length → p ≠ v →
      (playerAt (playerView G (some v)) p).hand =
        (List.range (playerAt G p).hand.length).map
          (fun i => (⟨1, s!"hidden-{p}-{i}"⟩ : Card)) ∧
      (playerAt (playerView G (some v)) p).hand.length =
        (playerAt G p).hand.length ∧
      (∀ c ∈ (playerAt (playerView G (some v)) p).hand, c.rank = 1)) ∧
    (playerView G (some v)).taxDebts.length = G.taxDebts.length ∧
    (∀ j, j < G.taxDebts.length →
      ((playerView G (some v)).taxDebts.getD j ⟨0, 0, 0, []⟩).count =
        (G.taxDebts.getD j ⟨0, 0, 0, []⟩).count ∧
      ((playerView G (some v)).taxDebts.getD j ⟨0, 0, 0, []⟩).fromPlayerID =
        (G.taxDebts.getD j ⟨0, 0, 0, []⟩).fromPlayerID ∧
      ((playerView G (some v)).taxDebts.getD j ⟨0, 0, 0, []⟩).toPlayerID =
        (G.taxDebts.getD j ⟨0, 0, 0, []⟩).toPlayerID ∧
      ((G.taxDebts.getD j ⟨0, 0, 0, []⟩).toPlayerID = v →
        ((playerView G (some v)).taxDebts.getD j ⟨0, 0, 0, []⟩).offeredCards = []) ∧
      ((G.taxDebts.getD j ⟨0, 0, 0, []⟩).toPlayerID ≠ v →
        (playerView G (some v)).taxDebts.getD j ⟨0, 0, 0, []⟩ =
          G.taxDebts.getD j ⟨0, 0, 0, []⟩)) := by
  have hdebts : ∀ j, j < G.taxDebts.length →
      (playerView G (some v)).taxDebts.getD j ⟨0, 0, 0, []⟩ =
        (if (G.taxDebts.getD j ⟨0, 0, 0, []⟩).toPlayerID = v
         then { G.taxDebts.getD j ⟨0, 0, 0, []⟩ with offeredCards := [] }
         else G.taxDebts.getD j ⟨0, 0, 0, []⟩) := by
    intro j hj
    have hj2 : j < (G.taxDebts.map (fun d =>
        if d.toPlayerID = v then { d with offeredCards := [] } else d)).length := by
      simpa using hj
    show (G.taxDebts.map (fun d =>
        if d.toPlayerID = v then { d with offeredCards := [] } else d)).getD j _ = _
    rw [List.getD_eq_getElem _ _ hj2, List.getElem_map,
      List.getD_eq_getElem _ _ hj]
  refine ⟨rfl, by simp [playerView, List.enum_length], ?_, ?_, by simp [playerView], ?_⟩
  · rw [playerView_playerAt G v v hv, if_pos rfl]
  · intro p hp hpv
    rw [playerView_playerAt G v p hp, if_neg hpv]
    refine ⟨rfl, by simp, ?_⟩
    intro c hc
    simp only [List.mem_map, List.mem_range] at hc
    obtain ⟨i, _, rfl⟩ := hc
    rfl
  · intro j hj
    rw [hdebts j hj]
    by_cases hto : (G.taxDebts.getD j ⟨0, 0, 0, []⟩).toPlayerID = v
    · rw [if_pos hto]
      exact ⟨rfl, rfl, rfl, fun _ => rfl, fun hn => absurd hto hn⟩
    · rw [if_neg hto]
      exact ⟨rfl, rfl, rfl, fun hh => absurd hh hto, fun _ => rfl⟩

/-- C8 witness: the projection applied to a concrete two-player state. -/
theorem playerView_spec_witness :
    playerView exampleGTax none = exampleGTax ∧
    playerAt (playerView exampleGTax (some 0)) 0 = playerAt exampleGTax 0 :=
  ⟨(playerView_spec exampleGTax 0 (by decide)).1,
   (playerView_spec exampleGTax 0 (by decide)).2.2.1⟩

/-- C7 counterexample: with both players finished the turn position moves
from 0 to 1 — not "no change in the turn position" as the claim states. -/
theorem orderNext_change_counterexample :
    (playerAt exampleGFin 0).finished = true ∧
    (playerAt exampleGFin 1).finished = true ∧
    orderNext exampleGFin [0, 1] 0 = 1 ∧ (1 : Nat) ≠ 0 := by decide

/-- The id-lookup loop fails exactly when some requested id has no card in
the hand. -/
theorem findCards_eq_none_iff (hand : List Card) (ids : List String) :
    findCards hand ids = none ↔ ∃ i ∈ ids, ∀ c ∈ hand, c.id ≠ i := by
  induction ids with
  | nil => simp [findCards]
  | cons i rest ih =>
    constructor
    · intro h
      unfold findCards at h
      cases hf : hand.find? (fun c => c.id == i) with
      | none =>
        refine ⟨i, by simp, ?_⟩
        intro c hc hci
        have := List.find?_eq_none.mp hf c hc
        simp [hci] at this
      | some c =>
        rw [hf] at h
        cases hrest : findCards hand rest with
        | none =>
          obtain ⟨j, hj, hall⟩ := ih.mp hrest
          exact ⟨j, by simp [hj], hall⟩
        | some cs => rw [hrest] at h; exact absurd h (by simp)
    · rintro ⟨j, hj, hall⟩
      rcases List.mem_cons.mp hj with rfl | hjr
      · have hf : hand.find? (fun c => c.id == j) = none := by
          apply List.find?_eq_none.mpr
          intro c hc
          simpa using hall c hc
        unfold findCards
        rw [hf]
      · have hrest : findCards hand rest = none := ih.mpr ⟨j, hjr, hall⟩
        unfold findCards
        rw [hrest]
        cases hand.find? (fun c => c.id == i) <;> rfl

/-- When the id-lookup loop succeeds, it returns one card from the hand per
requested id, in request order. -/
theorem findCards_some_props (hand : List Card) :
    ∀ ids cs, findCards hand ids = some cs →
      cs.length = ids.length ∧ (∀ c ∈ cs, c ∈ hand) ∧
      cs.map (fun c => c.id) = ids := by
  intro ids
  induction ids with
  | nil =>
    intro cs h
    unfold findCards at h
    cases h
    simp
  | cons i rest ih =>
    intro cs h
    unfold findCards at h
    cases hf : hand.find? (fun c => c.id == i) with
    | none => rw [hf] at h; exact absurd h (by simp)
    | some c =>
      rw [hf] at h
      cases hrest : findCards hand rest with
      | none => rw [hrest] at h; exact absurd h (by simp)
      | some cs2 =>
        rw [hrest] at h
        cases h
        obtain ⟨hl, hmem, hids⟩ := ih cs2 hrest
        refine ⟨by simp [hl], ?_, ?_⟩
        · intro x hx
          rcases List.mem_cons.mp hx with rfl | hx2
          · exact List.mem_of_find?_eq_some hf
          · exact hmem x hx2
        · have hc : c.id = i := by simpa using List.find?_some hf
          simp [hc, hids]

/-- `new Set(l).size ≤ 1` says all elements of `l` are equal. -/
theorem dedup_length_le_one_iff (l : List Nat) :
    l.dedup.length ≤ 1 ↔ ∀ a ∈ l, ∀ b ∈ l, a = b := by
  constructor
  · intro h a ha b hb
    have ha2 := List.mem_dedup.mpr ha
    have hb2 := List.mem_dedup.mpr hb
    cases hd : l.dedup with
    | nil => rw [hd] at ha2; simp at ha2
    | cons x t =>
      rw [hd] at ha2 hb2 h
      cases t with
      | nil =>
        simp at ha2 hb2
        rw [ha2, hb2]
      | cons y t2 => simp at h
  · intro h
    by_contra hgt
    push_neg at hgt
    have hnd := l.nodup_dedup
    cases hd : l.dedup with
    | nil => rw [hd] at hgt; simp at hgt
    | cons x t =>
      cases t with
      | nil => rw [hd] at hgt; simp at hgt
      | cons y t2 =>
        rw [hd] at hnd
        have hxy : x ≠ y := by
          have := List.nodup_cons.mp hnd
          simp at this
          exact this.1.1
        have hx : x ∈ l := List.mem_dedup.mp (by rw [hd]; simp)
        have hy : y ∈ l := List.mem_dedup.mp (by rw [hd]; simp)
        exact hxy (h x hx y hy)

/-- The same-rank validation of `playCards` (`uniqueRanks.size > 1`) holds
exactly when two selected non-Joker cards carry different ranks. -/
theorem span_iff (cs : List Card) :
    ((cs.filter (fun c => c.rank != 0)).map (fun c => c.rank)).dedup.length > 1 ↔
      ∃ c ∈ cs, ∃ c2 ∈ cs, c.rank ≠ 0 ∧ c2.rank ≠ 0 ∧ c.rank ≠ c2.rank := by
  rw [gt_iff_lt, ← not_le, dedup_length_le_one_iff]
  constructor
  · intro h
    push_neg at h
    obtain ⟨a, ha, b, hb, hab⟩ := h
    obtain ⟨c, hc, rfl⟩ := List.mem_map.mp ha
    obtain ⟨c2, hc2, rfl⟩ := List.mem_map.mp hb
    have hcf := List.mem_filter.mp hc
    have hc2f := List.mem_filter.mp hc2
    exact ⟨c, hcf.1, c2, hc2f.1, by simpa using hcf.2, by simpa using hc2f.2, hab⟩
  · rintro ⟨c, hc, c2, hc2, h0, h02, hne⟩
    intro hall
    exact hne (hall c.rank
      (List.mem_map.mpr ⟨c, List.mem_filter.mpr ⟨hc, by simpa using h0⟩, rfl⟩)
      c2.rank
      (List.mem_map.mpr ⟨c2, List.mem_filter.mpr ⟨hc2, by simpa using h02⟩, rfl⟩))

/-- `G.players[pid]` as an option lookup, for in-range `pid`. -/
theorem get?_players_eq (G : DalmutiState) (pid : Nat)
    (hpid : pid < G.players.length) :
    G.players[pid]? = some (playerAt G pid) := by
  rw [List.getElem?_eq_getElem hpid]
  unfold playerAt
  rw [List.getD_eq_getElem _ _ hpid]

/-- C4: `playCards` is rejected exactly when the selection is empty, some id
is not in the player's hand, the selected non-Joker cards span more than one
rank, or a trick is open and the play's size differs from the trick's count
or its effective rank (13 when all-Joker, the shared non-Joker rank
otherwise) is not strictly below the trick's rank. -/
theorem playCards_reject_iff (G : DalmutiState) (pid : Nat)
    (cardIds : List String) (hpid : pid < G.players.length) :
    (∃ s, playCards G pid cardIds = .invalid s) ↔
      (cardIds = [] ∨
       (∃ i ∈ cardIds, ∀ c ∈ (playerAt G pid).hand, c.id ≠ i) ∨
       (∃ cs, findCards (playerAt G pid).hand cardIds = some cs ∧
         ((∃ c ∈ cs, ∃ c2 ∈ cs, c.rank ≠ 0 ∧ c2.rank ≠ 0 ∧ c.rank ≠ c2.rank) ∨
          (∃ t, G.currentTrick = some t ∧
            (cs.length ≠ t.count ∨ t.rank ≤ effectiveRank cs))))) := by
  have hget := get?_players_eq G pid hpid
  by_cases hemp : cardIds = []
  · subst hemp
    exact iff_of_true ⟨G, by simp [playCards, hget]⟩ (Or.inl rfl)
  · have hlen0 : ¬(cardIds.length = 0) := by
      simpa [List.length_eq_zero] using hemp
    cases hfc : findCards (playerAt G pid).hand cardIds with
    | none =>
      refine iff_of_true ⟨G, ?_⟩
        (Or.inr (Or.inl ((findCards_eq_none_iff _ _).mp hfc)))
      simp [playCards, hget, hfc, hlen0]
    | some cs =>
      have hnomiss : ¬∃ i ∈ cardIds, ∀ c ∈ (playerAt G pid).hand, c.id ≠ i := by
        rw [← findCards_eq_none_iff]
        simp [hfc]
      by_cases hspan :
          ((cs.filter (fun c => c.rank != 0)).map (fun c => c.rank)).dedup.length > 1
      · refine iff_of_true ⟨G, ?_⟩
          (Or.inr (Or.inr ⟨cs, rfl, Or.inl ((span_iff cs).mp hspan)⟩))
        simp [playCards, hget, hfc, hlen0, hspan]
      · cases ht : G.currentTrick with
        | none =>
          refine iff_of_false ?_ ?_
          · rintro ⟨s, hs⟩
            simp [playCards, hget, hfc, hlen0, hspan, ht] at hs
          · rintro (h | h | ⟨cs2, hcs2, hor⟩)
            · exact hemp h
            · exact hnomiss h
            · cases hcs2
              rcases hor with hs | ⟨t, hts, _⟩
              · exact hspan ((span_iff cs).mpr hs)
              · exact Option.noConfusion hts
        | some t =>
          by_cases hcnt : cs.length = t.count
          · by_cases hrank : t.rank ≤ effectiveRank cs
            · refine iff_of_true ⟨G, ?_⟩
                (Or.inr (Or.inr ⟨cs, rfl, Or.inr ⟨t, rfl, Or.inr hrank⟩⟩))
              have hrank2 : t.rank ≤ (match cs.filter (fun c => c.rank != 0) with
                  | [] => 13
                  | c :: _ => c.rank) := by
                simpa [effectiveRank] using hrank
              simp [playCards, hget, hfc, hlen0, hspan, ht, hcnt, hrank2]
            · refine iff_of_false ?_ ?_
              · rintro ⟨s, hs⟩
                have hrank2 : ¬ t.rank ≤ (match cs.filter (fun c => c.rank != 0) with
                    | [] => 13
                    | c :: _ => c.rank) := by
                  simpa [effectiveRank] using hrank
                simp [playCards, hget, hfc, hlen0, hspan, ht, hcnt, hrank2] at hs
              · rintro (h | h | ⟨cs2, hcs2, hor⟩)
                · exact hemp h
                · exact hnomiss h
                · cases hcs2
                  rcases hor with hs | ⟨t2, hts, hor2⟩
                  · exact hspan ((span_iff cs).mpr hs)
                  · cases hts
                    rcases hor2 with hc | hr
                    · exact hc hcnt
                    · exact hrank hr
          · refine iff_of_true ⟨G, ?_⟩
              (Or.inr (Or.inr ⟨cs, rfl, Or.inr ⟨t, rfl, Or.inl hcnt⟩⟩))
            simp [playCards, hget, hfc, hlen0, hspan, ht, hcnt]

/-- C4 witness: on a concrete state, playing an empty selection is
rejected. -/
theorem playCards_reject_iff_witness :
    (0 : Nat) < exampleG.players.length ∧
    ∃ s, playCards exampleG 0 [] = MoveResult.invalid s :=
  ⟨by decide, (playCards_reject_iff exampleG 0 [] (by decide)).mpr (Or.inl rfl)⟩

/-- `markTrickWonIfComplete` only ever touches `pendingNewTrick`. -/
theorem markTrickWon_players (G : DalmutiState) :
    (markTrickWonIfComplete G).players = G.players := by
  unfold markTrickWonIfComplete
  repeat' split
  all_goals rfl

/-- `markTrickWonIfComplete` preserves the current trick. -/
theorem markTrickWon_currentTrick (G : DalmutiState) :
    (markTrickWonIfComplete G).currentTrick = G.currentTrick := by
  unfold markTrickWonIfComplete
  repeat' split
  all_goals rfl

/-- `markTrickWonIfComplete` preserves `lastPlayerToPlay`. -/
theorem markTrickWon_lastPlayerToPlay (G : DalmutiState) :
    (markTrickWonIfComplete G).lastPlayerToPlay = G.lastPlayerToPlay := by
  unfold markTrickWonIfComplete
  repeat' split
  all_goals rfl

/-- `markTrickWonIfComplete` preserves the passed set. -/
theorem markTrickWon_passedPlayers (G : DalmutiState) :
    (markTrickWonIfComplete G).passedPlayers = G.passedPlayers := by
  unfold markTrickWonIfComplete
  repeat' split
  all_goals rfl

/-- `markTrickWonIfComplete` preserves the finish order. -/
theorem markTrickWon_finishOrder (G : DalmutiState) :
    (markTrickWonIfComplete G).finishOrder = G.finishOrder := by
  unfold markTrickWonIfComplete
  repeat' split
  all_goals rfl

/-- `getD` after an in-range `set` at the same index. -/
theorem getD_set_self (ps : List PlayerState) (i : Nat) (q : PlayerState)
    (h : i < ps.length) :
    (ps.set i q).getD i defaultPlayer = q := by
  rw [List.getD_eq_getElem _ _ (by simpa using h), List.getElem_set_self]

/-- Keeping and dropping by a predicate partitions a list's length. -/
theorem length_filter_not_add (l : List Card) (p : Card → Bool) :
    (l.filter (fun c => !(p c))).length + (l.filter p).length = l.length := by
  induction l with
  | nil => simp
  | cons a t ih =>
    cases hp : p a <;> simp [List.filter_cons, hp] <;> omega

/-- If every requested id occurs in the hand, the hand's ids are distinct and
the requested ids are distinct, then exactly `ids.length` cards of the hand
carry a requested id. -/
theorem filter_contains_length (hand : List Card) (ids : List String)
    (hhand : (hand.map (fun c => c.id)).Nodup) (hids : ids.Nodup)
    (hex : ∀ i ∈ ids, ∃ c ∈ hand, c.id = i) :
    (hand.filter (fun c => ids.contains c.id)).length = ids.length := by
  have hsub : ((hand.filter (fun c => ids.contains c.id)).map (fun c => c.id)).Sublist
      (hand.map (fun c => c.id)) :=
    (List.filter_sublist _).map _
  have hnd : ((hand.filter (fun c => ids.contains c.id)).map (fun c => c.id)).Nodup :=
    hsub.nodup hhand
  have hperm : ((hand.filter (fun c => ids.contains c.id)).map
      (fun c => c.id)).Perm ids := by
    refine (List.perm_ext_iff_of_nodup hnd hids).mpr ?_
    intro x
    constructor
    · intro hx
      obtain ⟨c, hc, rfl⟩ := List.mem_map.mp hx
      have := (List.mem_filter.mp hc).2
      simpa using this
    · intro hx
      obtain ⟨c, hc, hcid⟩ := hex x hx
      subst hcid
      exact List.mem_map.mpr ⟨c, List.mem_filter.mpr ⟨hc, by simpa using hx⟩, rfl⟩
  have := hperm.length_eq
  simpa using this

/-- Field-level description of the mutation tail of `playCards`. -/
theorem applyPlay_spec (G : DalmutiState) (pid : Nat) (cardIds : List String)
    (cs : List Card) (r : Nat) (hpid : pid < G.players.length) :
    (playerAt (applyPlay G pid (playerAt G pid) cardIds cs r) pid).hand =
      (playerAt G pid).hand.filter (fun c => !(cardIds.contains c.id)) ∧
    (applyPlay G pid (playerAt G pid) cardIds cs r).currentTrick =
      some ⟨cs, r, cs.length, pid⟩ ∧
    (applyPlay G pid (playerAt G pid) cardIds cs r).lastPlayerToPlay = some pid ∧
    (applyPlay G pid (playerAt G pid) cardIds cs r).passedPlayers = [] ∧
    ((playerAt G pid).hand.filter (fun c => !(cardIds.contains c.id)) = [] →
      (playerAt (applyPlay G pid (playerAt G pid) cardIds cs r) pid).finished = true ∧
      (playerAt (applyPlay G pid (playerAt G pid) cardIds cs r) pid).finishPosition =
        some (G.finishOrder.length + 1) ∧
      (applyPlay G pid (playerAt G pid) cardIds cs r).finishOrder =
        G.finishOrder ++ [pid]) ∧
    ((playerAt G pid).hand.filter (fun c => !(cardIds.contains c.id)) ≠ [] →
      (playerAt (applyPlay G pid (playerAt G pid) cardIds cs r) pid).finished =
        (playerAt G pid).finished ∧
      (applyPlay G pid (playerAt G pid) cardIds cs r).finishOrder =
        G.finishOrder) := by
  unfold applyPlay
  by_cases hnh :
      ((playerAt G pid).hand.filter (fun c => !(cardIds.contains c.id))).length = 0
  · have hempty : (playerAt G pid).hand.filter (fun c => !(cardIds.contains c.id)) = [] :=
      List.length_eq_zero.mp hnh
    rw [if_pos hnh]
    refine ⟨?_, ?_, ?_, ?_, fun _ => ⟨?_, ?_, ?_⟩, fun hne => absurd hempty hne⟩
    · unfold playerAt
      rw [markTrickWon_players]
      show ((G.players.set pid _).getD pid defaultPlayer).hand = _
      rw [getD_set_self _ _ _ hpid]
    · rw [markTrickWon_currentTrick]
    · rw [markTrickWon_lastPlayerToPlay]
    · rw [markTrickWon_passedPlayers]
    · unfold playerAt
      rw [markTrickWon_players]
      show ((G.players.set pid _).getD pid defaultPlayer).finished = _
      rw [getD_set_self _ _ _ hpid]
    · unfold playerAt
      rw [markTrickWon_players]
      show ((G.players.set pid _).getD pid defaultPlayer).finishPosition = _
      rw [getD_set_self _ _ _ hpid]
    · rw [markTrickWon_finishOrder]
  · have hne : (playerAt G pid).hand.filter (fun c => !(cardIds.contains c.id)) ≠ [] := by
      intro hcon
      exact hnh (by rw [hcon]; rfl)
    rw [if_neg hnh]
    refine ⟨?_, ?_, ?_, ?_, fun hcon => absurd hcon hne, fun _ => ⟨?_, ?_⟩⟩
    · unfold playerAt
      rw [markTrickWon_players]
      show ((G.players.set pid _).getD pid defaultPlayer).hand = _
      rw [getD_set_self _ _ _ hpid]
    · rw [markTrickWon_currentTrick]
    · rw [markTrickWon_lastPlayerToPlay]
    · rw [markTrickWon_passedPlayers]
    · unfold playerAt
      rw [markTrickWon_players]
      show ((G.players.set pid _).getD pid defaultPlayer).finished = _
      rw [getD_set_self _ _ _ hpid]
    · rw [markTrickWon_finishOrder]

/-- C5 counterexample: with the duplicated selection `["a", "a"]` the move is
accepted, the hand shrinks by one card, but the new trick's count is 2 — the
hand does not shrink by the trick's count as claimed (and the trick holds two
copies of the same card). -/
theorem playCards_dup_ids_counterexample :
    isAccepted (playCards exampleG 0 ["a", "a"]) = true ∧
    (playerAt exampleG 0).hand.length = 2 ∧
    (playerAt (resultState (playCards exampleG 0 ["a", "a"])) 0).hand.length = 1 ∧
    (resultState (playCards exampleG 0 ["a", "a"])).currentTrick =
      some ⟨[⟨5, "a"⟩, ⟨5, "a"⟩], 5, 2, 0⟩ ∧
    2 - 1 ≠ 2 := by decide

/-- C5 (amended): for every accepted `playCards` call whose `cardIds` contain
no duplicate id (and with the deck invariant that the hand's ids are
distinct): exactly the cards with the selected ids leave the hand, the hand
shrinks by the number of cards played, which equals the new trick's count;
the trick becomes those cards at the computed effective rank, played by that
player; the passed set resets; and when the hand empties, the player is
marked finished with position `1 + (previously finished)` and appended to the
finish order. -/
theorem playCards_accept_spec (G : DalmutiState) (pid : Nat)
    (cardIds : List String) (G2 : DalmutiState)
    (hpid : pid < G.players.length)
    (hids : cardIds.Nodup)
    (hhand : ((playerAt G pid).hand.map (fun c => c.id)).Nodup)
    (hacc : playCards G pid cardIds = .valid G2) :
    ∃ cs, findCards (playerAt G pid).hand cardIds = some cs ∧
      cs.length = cardIds.length ∧
      (playerAt G2 pid).hand =
        (playerAt G pid).hand.filter (fun c => !(cardIds.contains c.id)) ∧
      (∀ c ∈ (playerAt G pid).hand,
        (c ∈ (playerAt G2 pid).hand ↔ ¬ c.id ∈ cardIds)) ∧
      (playerAt G2 pid).hand.length + cardIds.length =
        (playerAt G pid).hand.length ∧
      G2.currentTrick = some ⟨cs, effectiveRank cs, cs.length, pid⟩ ∧
      G2.lastPlayerToPlay = some pid ∧
      G2.passedPlayers = [] ∧
      ((playerAt G2 pid).hand = [] →
        (playerAt G2 pid).finished = true ∧
        (playerAt G2 pid).finishPosition = some (G.finishOrder.length + 1) ∧
        G2.finishOrder = G.finishOrder ++ [pid]) ∧
      ((playerAt G2 pid).hand ≠ [] →
        (playerAt G2 pid).finished = (playerAt G pid).finished ∧
        G2.finishOrder = G.finishOrder) := by
  have hget := get?_players_eq G pid hpid
  cases hfc : findCards (playerAt G pid).hand cardIds with
  | none =>
      simp only [playCards, List.get?_eq_getElem?, hget, hfc] at hacc
      repeat' (first | split at hacc | simp only [] at hacc)
      all_goals exact MoveResult.noConfusion hacc
  | some cs =>
      have hex : ∀ i ∈ cardIds, ∃ c ∈ (playerAt G pid).hand, c.id = i := by
        intro i hi
        by_contra hno
        push_neg at hno
        have hnone : findCards (playerAt G pid).hand cardIds = none :=
          (findCards_eq_none_iff _ _).mpr ⟨i, hi, hno⟩
        rw [hfc] at hnone
        exact Option.noConfusion hnone
      obtain ⟨hlen, hmem, hids2⟩ := findCards_some_props _ _ _ hfc
      have hinlen : ((playerAt G pid).hand.filter
          (fun c => cardIds.contains c.id)).length = cardIds.length :=
        filter_contains_length _ _ hhand hids hex
      have hflen := length_filter_not_add (playerAt G pid).hand
        (fun c => cardIds.contains c.id)
      have main : ∀ r : Nat, effectiveRank cs = r →
          applyPlay G pid (playerAt G pid) cardIds cs r = G2 →
          ∃ cs0, (some cs = some cs0) ∧
            cs0.length = cardIds.length ∧
            (playerAt G2 pid).hand =
              (playerAt G pid).hand.filter (fun c => !(cardIds.contains c.id)) ∧
            (∀ c ∈ (playerAt G pid).hand,
              (c ∈ (playerAt G2 pid).hand ↔ ¬ c.id ∈ cardIds)) ∧
            (playerAt G2 pid).hand.length + cardIds.length =
              (playerAt G pid).hand.length ∧
            G2.currentTrick = some ⟨cs0, effectiveRank cs0, cs0.length, pid⟩ ∧
            G2.lastPlayerToPlay = some pid ∧
            G2.passedPlayers = [] ∧
            ((playerAt G2 pid).hand = [] →
              (playerAt G2 pid).finished = true ∧
              (playerAt G2 pid).finishPosition = some (G.finishOrder.length + 1) ∧
              G2.finishOrder = G.finishOrder ++ [pid]) ∧
            ((playerAt G2 pid).hand ≠ [] →
              (playerAt G2 pid).finished = (playerAt G pid).finished ∧
              G2.finishOrder = G.finishOrder) := by
        intro r hr hA
        subst hr
        subst hA
        obtain ⟨h1, h2, h3, h4, h5, h6⟩ :=
          applyPlay_spec G pid cardIds cs (effectiveRank cs) hpid
        refine ⟨cs, rfl, hlen, h1, ?_, ?_, by rw [h2], h3, h4, fun he => h5 (h1 ▸ he),
          fun hne => ⟨((h6 (h1 ▸ hne)).1), ((h6 (h1 ▸ hne)).2)⟩⟩
        · intro c hc
          rw [h1]
          constructor
          · intro hcf
            have := (List.mem_filter.mp hcf).2
            simpa using this
          · intro hni
            exact List.mem_filter.mpr ⟨hc, by simpa using hni⟩
        · rw [h1, hflen.symm.trans (by rw [hinlen])]
      simp only [playCards, List.get?_eq_getElem?, hget, hfc] at hacc
      repeat' (first | split at hacc | simp only [] at hacc)
      all_goals
        first
        | exact MoveResult.noConfusion hacc
        | (rename_i hsh
           refine main _ ?_ (MoveResult.valid.inj hacc)
           simp [effectiveRank, hsh])

/-- C5 witness: the amended theorem applied to a concrete accepted play. -/
theorem playCards_accept_spec_witness :
    (playerAt exampleG2 0).hand =
      (playerAt exampleG 0).hand.filter (fun c => !(["a"].contains c.id)) := by
  obtain ⟨cs, -, -, h, -⟩ := playCards_accept_spec exampleG 0 ["a"] exampleG2
    (by decide) (by decide) (by decide) (by decide)
  exact h

/-- Replacing an in-range entry changes a mapped sum by swapping the images
of the old and new entries. -/
theorem sum_map_set {α β : Type} [AddCommMonoid β] (l : List α) (f : α → β)
    (i : Nat) (a dflt : α) (h : i < l.length) :
    ((l.set i a).map f).sum + f (l.getD i dflt) = (l.map f).sum + f a := by
  induction l generalizing i with
  | nil => simp at h
  | cons x t ih =>
    cases i with
    | zero =>
      simp only [List.set_cons_zero, List.map_cons, List.sum_cons,
        List.getD_cons_zero]
      abel
    | succ k =>
      have hk : k < t.length := by simpa using h
      simp only [List.set_cons_succ, List.map_cons, List.sum_cons,
        List.getD_cons_succ]
      rw [add_assoc, add_assoc, ih k hk]

/-- Pushing cards onto an in-range hand grows the hands sum by those cards. -/
theorem pushToHand_sum (ps : List PlayerState) (i : Nat) (cs : List Card)
    (h : i < ps.length) :
    ((pushToHand ps i cs).map (fun p => (p.hand : Multiset Card))).sum =
      (ps.map (fun p => (p.hand : Multiset Card))).sum + (cs : Multiset Card) := by
  unfold pushToHand
  have e := sum_map_set ps (fun p => (p.hand : Multiset Card)) i
    { ps.getD i defaultPlayer with hand := (ps.getD i defaultPlayer).hand ++ cs }
    defaultPlayer h
  have e3 : (ps.map (fun p => (p.hand : Multiset Card))).sum +
      (((ps.getD i defaultPlayer).hand ++ cs : List Card) : Multiset Card) =
      ((ps.map (fun p => (p.hand : Multiset Card))).sum + (cs : Multiset Card)) +
        ((ps.getD i defaultPlayer).hand : Multiset Card) := by
    show _ + (((ps.getD i defaultPlayer).hand : Multiset Card) + (cs : Multiset Card)) = _
    abel
  exact add_right_cancel (e.trans e3)

/-- The staged-return loop of `declareRevolution` adds every debt's
`offeredCards` back into the hands sum. -/
theorem returnStaged_sum : ∀ (debts : List TaxDebt) (ps : List PlayerState),
    (∀ d ∈ debts, d.fromPlayerID < ps.length) →
    ((returnStaged ps debts).map (fun p => (p.hand : Multiset Card))).sum =
      (ps.map (fun p => (p.hand : Multiset Card))).sum +
      (debts.map (fun d => (d.offeredCards : Multiset Card))).sum := by
  intro debts
  induction debts with
  | nil => intro ps _; simp [returnStaged]
  | cons d rest ih =>
    intro ps hv
    unfold returnStaged
    by_cases hoff : d.offeredCards.length > 0
    · rw [if_pos hoff]
      rw [ih _ (fun d2 hd2 => by
        rw [pushToHand, List.length_set]
        exact hv d2 (List.mem_cons_of_mem _ hd2))]
      rw [pushToHand_sum _ _ _ (hv d (List.mem_cons_self _ _))]
      simp only [List.map_cons, List.sum_cons]
      abel
    · rw [if_neg hoff]
      rw [ih _ (fun d2 hd2 => hv d2 (List.mem_cons_of_mem _ hd2))]
      have hnil : d.offeredCards = [] :=
        List.length_eq_zero.mp (by omega)
      simp [hnil]

/-- Overwriting only a player's `socialRank` leaves the hands sum intact. -/
theorem set_rank_hands_sum (ps : List PlayerState) (i : Nat) (r : Option Nat) :
    ((ps.set i { ps.getD i defaultPlayer with socialRank := r }).map
      (fun p => (p.hand : Multiset Card))).sum =
    (ps.map (fun p => (p.hand : Multiset Card))).sum := by
  by_cases h : i < ps.length
  · exact add_right_cancel
      (sum_map_set ps (fun p => (p.hand : Multiset Card)) i
        { ps.getD i defaultPlayer with socialRank := r } defaultPlayer h)
  · rw [List.set_eq_of_length_le (Nat.le_of_not_lt h)]

/-- `assignRanks` never changes any hand. -/
theorem assignRanks_hands_sum (order : List Nat) (ps : List PlayerState) :
    ((assignRanks ps order).map (fun p => (p.hand : Multiset Card))).sum =
      (ps.map (fun p => (p.hand : Multiset Card))).sum := by
  unfold assignRanks
  generalize order.enum = l
  induction l generalizing ps with
  | nil => rfl
  | cons pr rest ih =>
    simp only [List.foldl_cons]
    rw [ih]
    exact set_rank_hands_sum ps pr.2 (some (pr.1 + 1))

/-- With distinct hand ids and distinct request ids, the id-lookup's result
is, as a multiset, exactly the hand cards carrying a requested id. -/
theorem findCards_perm_filter (hand : List Card) (ids : List String)
    (cs : List Card)
    (hhand : (hand.map (fun c => c.id)).Nodup) (hids : ids.Nodup)
    (hfc : findCards hand ids = some cs) :
    cs.Perm (hand.filter (fun c => ids.contains c.id)) := by
  obtain ⟨hlen, hmem, hcsids⟩ := findCards_some_props hand ids cs hfc
  have hcsnd : cs.Nodup :=
    List.Nodup.of_map (fun c => c.id) (by rw [hcsids]; exact hids)
  have hfilnd : (hand.filter (fun c => ids.contains c.id)).Nodup :=
    (List.Nodup.of_map (fun c => c.id) hhand).filter _
  refine (List.perm_ext_iff_of_nodup hcsnd hfilnd).mpr ?_
  intro c
  constructor
  · intro hc
    refine List.mem_filter.mpr ⟨hmem c hc, ?_⟩
    have : c.id ∈ ids := by
      rw [← hcsids]
      exact List.mem_map_of_mem _ hc
    simpa using this
  · intro hc
    obtain ⟨hch, hcid⟩ := List.mem_filter.mp hc
    have hcid2 : c.id ∈ ids := by simpa using hcid
    rw [← hcsids] at hcid2
    obtain ⟨c2, hc2, hid⟩ := List.mem_map.mp hcid2
    have he : c2 = c := List.inj_on_of_nodup_map hhand (hmem c2 hc2) hch hid
    rwa [← he]

/-- The `giveBackCards` double hand update: the receiver's hand is replaced
by `recv1.hand` and the payer's hand (read after that write) gains `give`;
the hands sum changes accordingly. -/
theorem set2_transfer_sum (ps : List PlayerState) (caller fromID : Nat)
    (recv1 : PlayerState) (give : List Card)
    (hcall : caller < ps.length) (hfrom : fromID < ps.length) :
    (((ps.set caller recv1).set fromID
        { (ps.set caller recv1).getD fromID defaultPlayer with
          hand := ((ps.set caller recv1).getD fromID defaultPlayer).hand
            ++ give }).map (fun p => (p.hand : Multiset Card))).sum +
      ((ps.getD caller defaultPlayer).hand : Multiset Card) =
      (ps.map (fun p => (p.hand : Multiset Card))).sum +
        (recv1.hand : Multiset Card) + (give : Multiset Card) := by
  have hlen1 : fromID < (ps.set caller recv1).length := by simpa using hfrom
  have e2 := sum_map_set (ps.set caller recv1)
    (fun p => (p.hand : Multiset Card)) fromID
    { (ps.set caller recv1).getD fromID defaultPlayer with
      hand := ((ps.set caller recv1).getD fromID defaultPlayer).hand ++ give }
    defaultPlayer hlen1
  have e1 := sum_map_set ps (fun p => (p.hand : Multiset Card)) caller recv1
    defaultPlayer hcall
  have e2' : (((ps.set caller recv1).set fromID
      { (ps.set caller recv1).getD fromID defaultPlayer with
        hand := ((ps.set caller recv1).getD fromID defaultPlayer).hand
          ++ give }).map (fun p => (p.hand : Multiset Card))).sum =
      ((ps.set caller recv1).map (fun p => (p.hand : Multiset Card))).sum +
        (give : Multiset Card) := by
    refine add_right_cancel (e2.trans ?_)
    show _ + ((((ps.set caller recv1).getD fromID defaultPlayer).hand :
        Multiset Card) + (give : Multiset Card)) = _
    abel
  rw [e2']
  calc ((ps.set caller recv1).map (fun p => (p.hand : Multiset Card))).sum +
        (give : Multiset Card) +
        ((ps.getD caller defaultPlayer).hand : Multiset Card)
      = (((ps.set caller recv1).map (fun p => (p.hand : Multiset Card))).sum +
          ((ps.getD caller defaultPlayer).hand : Multiset Card)) +
          (give : Multiset Card) := by abel
    _ = ((ps.map (fun p => (p.hand : Multiset Card))).sum +
          (recv1.hand : Multiset Card)) + (give : Multiset Card) := by rw [e1]

/-- Clearing an in-range debt removes exactly its staged cards from the
debts sum. -/
theorem debtsSum_set_clear (ds : List TaxDebt) (i : Nat) (d2 : TaxDebt)
    (h : i < ds.length) (hd2 : d2.offeredCards = []) :
    ((ds.set i d2).map (fun d => (d.offeredCards : Multiset Card))).sum +
      ((ds.getD i ⟨0, 0, 0, []⟩).offeredCards : Multiset Card) =
    (ds.map (fun d => (d.offeredCards : Multiset Card))).sum := by
  have e := sum_map_set ds (fun d => (d.offeredCards : Multiset Card)) i d2
    ⟨0, 0, 0, []⟩ h
  simp only [] at e
  rw [hd2] at e
  simpa using e

/-- Composite effect of an accepted `giveBackCards` on the total card
multiset: the receiver's hand splits as `fil ++ give` (distinct ids), the
staged cards join the receiver, `give` joins the payer, the debt is cleared
— the total is conserved. -/
theorem giveBack_total_eq (ps : List PlayerState) (ds : List TaxDebt)
    (caller di : Nat) (give fil : List Card)
    (hcall : caller < ps.length)
    (hfrom : (ds.getD di ⟨0, 0, 0, []⟩).fromPlayerID < ps.length)
    (hdi : di < ds.length)
    (hkey : ((ps.getD caller defaultPlayer).hand : Multiset Card) =
      ↑fil + ↑give) :
    ((((ps.set caller
        { ps.getD caller defaultPlayer with
          hand := fil ++ (ds.getD di ⟨0, 0, 0, []⟩).offeredCards })).set
        (ds.getD di ⟨0, 0, 0, []⟩).fromPlayerID
        { ((ps.set caller
        { ps.getD caller defaultPlayer with
          hand := fil ++ (ds.getD di ⟨0, 0, 0, []⟩).offeredCards }).getD
        (ds.getD di ⟨0, 0, 0, []⟩).fromPlayerID defaultPlayer) with
          hand := ((ps.set caller
        { ps.getD caller defaultPlayer with
          hand := fil ++ (ds.getD di ⟨0, 0, 0, []⟩).offeredCards }).getD
        (ds.getD di ⟨0, 0, 0, []⟩).fromPlayerID defaultPlayer).hand ++ give }).map
        (fun p => (p.hand : Multiset Card))).sum +
      ((ds.set di
        { ds.getD di ⟨0, 0, 0, []⟩ with offeredCards := [], count := 0 }).map
        (fun d => (d.offeredCards : Multiset Card))).sum =
      (ps.map (fun p => (p.hand : Multiset Card))).sum +
      (ds.map (fun d => (d.offeredCards : Multiset Card))).sum := by
  have h1 := set2_transfer_sum ps caller
    (ds.getD di ⟨0, 0, 0, []⟩).fromPlayerID
    { ps.getD caller defaultPlayer with
          hand := fil ++ (ds.getD di ⟨0, 0, 0, []⟩).offeredCards } give hcall hfrom
  have h2 := debtsSum_set_clear ds di
    { ds.getD di ⟨0, 0, 0, []⟩ with offeredCards := [], count := 0 } hdi rfl
  have h1x : ((((ps.set caller
        { ps.getD caller defaultPlayer with
          hand := fil ++ (ds.getD di ⟨0, 0, 0, []⟩).offeredCards })).set
        (ds.getD di ⟨0, 0, 0, []⟩).fromPlayerID
        { ((ps.set caller
        { ps.getD caller defaultPlayer with
          hand := fil ++ (ds.getD di ⟨0, 0, 0, []⟩).offeredCards }).getD
        (ds.getD di ⟨0, 0, 0, []⟩).fromPlayerID defaultPlayer) with
          hand := ((ps.set caller
        { ps.getD caller defaultPlayer with
          hand := fil ++ (ds.getD di ⟨0, 0, 0, []⟩).offeredCards }).getD
        (ds.getD di ⟨0, 0, 0, []⟩).fromPlayerID defaultPlayer).hand ++ give }).map
        (fun p => (p.hand : Multiset Card))).sum +
      ((fil : Multiset Card) + (give : Multiset Card)) =
      (ps.map (fun p => (p.hand : Multiset Card))).sum + ((ds.getD di ⟨0, 0, 0, []⟩).offeredCards : Multiset Card) +
      ((fil : Multiset Card) + (give : Multiset Card)) := by
    calc ((((ps.set caller
        { ps.getD caller defaultPlayer with
          hand := fil ++ (ds.getD di ⟨0, 0, 0, []⟩).offeredCards })).set
        (ds.getD di ⟨0, 0, 0, []⟩).fromPlayerID
        { ((ps.set caller
        { ps.getD caller defaultPlayer with
          hand := fil ++ (ds.getD di ⟨0, 0, 0, []⟩).offeredCards }).getD
        (ds.getD di ⟨0, 0, 0, []⟩).fromPlayerID defaultPlayer) with
          hand := ((ps.set caller
        { ps.getD caller defaultPlayer with
          hand := fil ++ (ds.getD di ⟨0, 0, 0, []⟩).offeredCards }).getD
        (ds.getD di ⟨0, 0, 0, []⟩).fromPlayerID defaultPlayer).hand ++ give }).map
        (fun p => (p.hand : Multiset Card))).sum +
        ((fil : Multiset Card) + (give : Multiset Card))
        = ((((ps.set caller
        { ps.getD caller defaultPlayer with
          hand := fil ++ (ds.getD di ⟨0, 0, 0, []⟩).offeredCards })).set
        (ds.getD di ⟨0, 0, 0, []⟩).fromPlayerID
        { ((ps.set caller
        { ps.getD caller defaultPlayer with
          hand := fil ++ (ds.getD di ⟨0, 0, 0, []⟩).offeredCards }).getD
        (ds.getD di ⟨0, 0, 0, []⟩).fromPlayerID defaultPlayer) with
          hand := ((ps.set caller
        { ps.getD caller defaultPlayer with
          hand := fil ++ (ds.getD di ⟨0, 0, 0, []⟩).offeredCards }).getD
        (ds.getD di ⟨0, 0, 0, []⟩).fromPlayerID defaultPlayer).hand ++ give }).map
        (fun p => (p.hand : Multiset Card))).sum +
          ((ps.getD caller defaultPlayer).hand : Multiset Card) := by rw [hkey]
      _ = (ps.map (fun p => (p.hand : Multiset Card))).sum +
          (({ ps.getD caller defaultPlayer with
          hand := fil ++ (ds.getD di ⟨0, 0, 0, []⟩).offeredCards }).hand : Multiset Card) + (give : Multiset Card) := h1
      _ = (ps.map (fun p => (p.hand : Multiset Card))).sum + ((ds.getD di ⟨0, 0, 0, []⟩).offeredCards : Multiset Card) +
          ((fil : Multiset Card) + (give : Multiset Card)) := by
          show (ps.map (fun p => (p.hand : Multiset Card))).sum +
            ((fil : Multiset Card) + ((ds.getD di ⟨0, 0, 0, []⟩).offeredCards : Multiset Card)) + (give : Multiset Card) = _
          abel
  have h1y : ((((ps.set caller
        { ps.getD caller defaultPlayer with
          hand := fil ++ (ds.getD di ⟨0, 0, 0, []⟩).offeredCards })).set
        (ds.getD di ⟨0, 0, 0, []⟩).fromPlayerID
        { ((ps.set caller
        { ps.getD caller defaultPlayer with
          hand := fil ++ (ds.getD di ⟨0, 0, 0, []⟩).offeredCards }).getD
        (ds.getD di ⟨0, 0, 0, []⟩).fromPlayerID defaultPlayer) with
          hand := ((ps.set caller
        { ps.getD caller defaultPlayer with
          hand := fil ++ (ds.getD di ⟨0, 0, 0, []⟩).offeredCards }).getD
        (ds.getD di ⟨0, 0, 0, []⟩).fromPlayerID defaultPlayer).hand ++ give }).map
        (fun p => (p.hand : Multiset Card))).sum =
      (ps.map (fun p => (p.hand : Multiset Card))).sum + ((ds.getD di ⟨0, 0, 0, []⟩).offeredCards : Multiset Card) := add_right_cancel h1x
  rw [h1y, ← h2]
  abel

/-- C10 counterexample: `giveBackCards` accepts the duplicated selection
`["x", "x"]`; the payer then gains two copies of card `x` while the receiver
loses only one, so the combined multiset of cards across hands and staged
offers grows — a card is duplicated. -/
theorem giveBack_dup_counterexample :
    isAccepted (giveBackCards exampleGTax 0 ["x", "x"]) = true ∧
    totalCards (resultState (giveBackCards exampleGTax 0 ["x", "x"])) ≠
      totalCards exampleGTax := by decide

/-- C10 (amended): with valid debt references and an in-range caller, and —
for `GiveBackCards` — no duplicate id among the submitted cards (hand ids
being distinct per the deck invariant), every tax-phase operation preserves
the combined multiset of cards across all hands and all staged offers:
an accepted `GiveBackCards` trades cards without creating or destroying any,
an accepted `DeclareRevolution` returns every staged card to its payer
before clearing the debts, and `MarkReady` touches no cards. -/
theorem tax_ops_conserve_cards (G : DalmutiState) (caller : Nat)
    (cardIds : List String) (G2 G3 G4 : DalmutiState)
    (hdebts : ∀ d ∈ G.taxDebts, d.fromPlayerID < G.players.length)
    (hcall : caller < G.players.length)
    (hids : cardIds.Nodup)
    (hhand : (((G.players.getD caller defaultPlayer).hand).map
      (fun c => c.id)).Nodup) :
    (giveBackCards G caller cardIds = .valid G2 → totalCards G2 = totalCards G) ∧
    (declareRevolution G caller = .valid G3 → totalCards G3 = totalCards G) ∧
    (markReady G caller = .valid G4 → totalCards G4 = totalCards G) := by
  refine ⟨?_, ?_, ?_⟩
  · intro h
    cases hidx : G.taxDebts.findIdx?
        (fun d => d.toPlayerID == caller && d.offeredCards.length > 0) with
    | none =>
      simp only [giveBackCards, hidx] at h
      exact MoveResult.noConfusion h
    | some di =>
      obtain ⟨hdi, -, -⟩ := List.findIdx?_eq_some_iff_getElem.mp hidx
      have hmemd : G.taxDebts.getD di ⟨0, 0, 0, []⟩ ∈ G.taxDebts := by
        rw [List.getD_eq_getElem _ _ hdi]
        exact List.getElem_mem _
      have hfrom : (G.taxDebts.getD di ⟨0, 0, 0, []⟩).fromPlayerID <
          G.players.length := hdebts _ hmemd
      cases hfc2 : findCards (G.players.getD caller defaultPlayer).hand cardIds with
      | none =>
        simp only [giveBackCards, hidx, hfc2] at h
        repeat' (first | split at h | simp only [] at h)
        all_goals exact MoveResult.noConfusion h
      | some give =>
        have hperm := findCards_perm_filter _ _ _ hhand hids hfc2
        have hg : (give : Multiset Card) =
            ↑((G.players.getD caller defaultPlayer).hand.filter
              (fun c => cardIds.contains c.id)) := Multiset.coe_eq_coe.mpr hperm
        have hsplit := List.filter_append_perm
          (fun c => cardIds.contains c.id) (G.players.getD caller defaultPlayer).hand
        have hkey : ((G.players.getD caller defaultPlayer).hand : Multiset Card) =
            ↑((G.players.getD caller defaultPlayer).hand.filter
              (fun c => !(cardIds.contains c.id))) + (give : Multiset Card) := by
          rw [hg, (Multiset.coe_eq_coe.mpr hsplit).symm]
          show (↑((G.players.getD caller defaultPlayer).hand.filter
              (fun c => cardIds.contains c.id)) +
            ↑((G.players.getD caller defaultPlayer).hand.filter
              (fun a => !(cardIds.contains a.id))) : Multiset Card) = _
          abel
        simp only [giveBackCards, hidx, hfc2] at h
        repeat' (first | split at h | simp only [] at h)
        all_goals
          first
          | exact MoveResult.noConfusion h
          | (cases MoveResult.valid.inj h
             exact giveBack_total_eq G.players G.taxDebts caller di give
               ((G.players.getD caller defaultPlayer).hand.filter
                 (fun c => !(cardIds.contains c.id)))
               hcall hfrom hdi hkey)
  · intro h
    have hget := get?_players_eq G caller hcall
    simp only [declareRevolution, List.get?_eq_getElem?, hget] at h
    repeat' (first | split at h | simp only [] at h)
    all_goals
      first
      | exact MoveResult.noConfusion h
      | (cases MoveResult.valid.inj h
         unfold totalCards
         simp only []
         rw [assignRanks_hands_sum, returnStaged_sum _ _ hdebts]
         simp)
      | (cases MoveResult.valid.inj h
         unfold totalCards
         simp only []
         rw [returnStaged_sum _ _ hdebts]
         simp)
  · intro h
    unfold markReady at h
    repeat' split at h
    all_goals
      first
      | exact MoveResult.noConfusion h
      | (cases MoveResult.valid.inj h; rfl)

/-- C10 witness: a concrete accepted give-back exchange conserves the
combined card multiset. -/
theorem tax_ops_conserve_cards_witness :
    totalCards exampleGTax2 = totalCards exampleGTax :=
  (tax_ops_conserve_cards exampleGTax 0 ["x", "y"] exampleGTax2 exampleGTax
    exampleGTax (by decide) (by decide) (by decide) (by decide)).1 (by decide)


/-- `getD` after `set` at a different index (any ranges). -/
theorem getD_set_ne (ps : List PlayerState) (j i : Nat) (q : PlayerState)
    (hne : j ≠ i) :
    (ps.set j q).getD i defaultPlayer = ps.getD i defaultPlayer := by
  by_cases hi : i < ps.length
  · rw [List.getD_eq_getElem _ _ (by simpa using hi),
      List.getD_eq_getElem _ _ hi]
    exact List.getElem_set_ne hne _
  · rw [List.getD_eq_getElem?_getD, List.getD_eq_getElem?_getD,
      List.getElem?_eq_none (by simpa using Nat.le_of_not_lt hi),
      List.getElem?_eq_none (Nat.le_of_not_lt hi)]

/-- Pointwise effect of the staged-return loop: player `p` gets back the
offered cards of exactly the debts that name `p` as payer, appended in debt
order; all other fields survive. -/
theorem returnStaged_getD : ∀ (debts : List TaxDebt) (ps : List PlayerState)
    (p : Nat), p < ps.length →
    (∀ d ∈ debts, d.fromPlayerID < ps.length) →
    (returnStaged ps debts).getD p defaultPlayer =
      { ps.getD p defaultPlayer with
        hand := (ps.getD p defaultPlayer).hand ++
          ((debts.filter (fun d => d.fromPlayerID == p)).map
            (fun d => d.offeredCards)).flatten } := by
  intro debts
  induction debts with
  | nil =>
    intro ps p hp _
    simp [returnStaged]
  | cons d rest ih =>
    intro ps p hp hv
    have hfrom : d.fromPlayerID < ps.length := hv d (List.mem_cons_self _ _)
    unfold returnStaged
    by_cases hoff : d.offeredCards.length > 0
    · rw [if_pos hoff]
      rw [ih (pushToHand ps d.fromPlayerID d.offeredCards) p
        (by rw [pushToHand, List.length_set]; exact hp)
        (fun d2 hd2 => by
          rw [pushToHand, List.length_set]
          exact hv d2 (List.mem_cons_of_mem _ hd2))]
      by_cases hdp : d.fromPlayerID = p
      · subst hdp
        rw [show pushToHand ps d.fromPlayerID d.offeredCards =
            ps.set d.fromPlayerID
              { ps.getD d.fromPlayerID defaultPlayer with
                hand := (ps.getD d.fromPlayerID defaultPlayer).hand ++
                  d.offeredCards } from rfl,
          getD_set_self _ _ _ hfrom]
        simp [List.filter_cons, List.append_assoc]
      · rw [show pushToHand ps d.fromPlayerID d.offeredCards =
            ps.set d.fromPlayerID
              { ps.getD d.fromPlayerID defaultPlayer with
                hand := (ps.getD d.fromPlayerID defaultPlayer).hand ++
                  d.offeredCards } from rfl,
          getD_set_ne _ _ _ _ hdp]
        have hne : (d.fromPlayerID == p) = false := by
          simpa using hdp
        simp [List.filter_cons, hne]
    · rw [if_neg hoff]
      rw [ih ps p hp (fun d2 hd2 => hv d2 (List.mem_cons_of_mem _ hd2))]
      have hnil : d.offeredCards = [] := List.length_eq_zero.mp (by omega)
      by_cases hdp : d.fromPlayerID = p
      · have he : (d.fromPlayerID == p) = true := by simpa using hdp
        simp [List.filter_cons, he, hnil]
      · have hne : (d.fromPlayerID == p) = false := by simpa using hdp
        simp [List.filter_cons, hne]

/-- When payer ids are pairwise distinct, the debts naming `d`'s payer are
exactly `[d]`. -/
theorem filter_eq_single_of_nodup_key (ds : List TaxDebt) (d : TaxDebt)
    (hmem : d ∈ ds) (hnd : (ds.map (fun x => x.fromPlayerID)).Nodup) :
    ds.filter (fun d2 => d2.fromPlayerID == d.fromPlayerID) = [d] := by
  induction ds with
  | nil => simp at hmem
  | cons a rest ih =>
    have hh : a.fromPlayerID ∉ rest.map (fun x => x.fromPlayerID) ∧
        (rest.map (fun x => x.fromPlayerID)).Nodup := by
      rw [List.map_cons] at hnd
      exact List.nodup_cons.mp hnd
    rcases List.mem_cons.mp hmem with rfl | hdr
    · have hrest : rest.filter (fun d2 => d2.fromPlayerID == d.fromPlayerID) = [] := by
        refine List.filter_eq_nil_iff.mpr ?_
        intro d2 hd2 hc
        have hceq : d2.fromPlayerID = d.fromPlayerID := by simpa using hc
        exact hh.1 (List.mem_map.mpr ⟨d2, hd2, hceq⟩)
      simp [List.filter_cons, hrest]
    · have hane : (a.fromPlayerID == d.fromPlayerID) = false := by
        by_contra hc
        have hc2 : a.fromPlayerID = d.fromPlayerID := by
          have hc3 : (a.fromPlayerID == d.fromPlayerID) = true := by
            simpa using hc
          simpa using hc3
        exact hh.1 (List.mem_map.mpr ⟨d, hdr, hc2.symm⟩)
      rw [List.filter_cons]
      simp only [hane, if_false, Bool.false_eq_true]
      exact ih hdr hh.2

/-- A single rank-assignment step never touches hands or other fields. -/
theorem set_rank_getD (ps : List PlayerState) (j i : Nat) (r : Option Nat) :
    (((ps.set j { ps.getD j defaultPlayer with socialRank := r }).getD i
      defaultPlayer).hand = ((ps.getD i defaultPlayer).hand)) ∧
    ((ps.set j { ps.getD j defaultPlayer with socialRank := r }).getD i
      defaultPlayer).finished = (ps.getD i defaultPlayer).finished := by
  by_cases hji : j = i
  · subst hji
    by_cases hj : j < ps.length
    · rw [getD_set_self _ _ _ hj]
      exact ⟨rfl, rfl⟩
    · rw [List.set_eq_of_length_le (Nat.le_of_not_lt hj)]
      exact ⟨rfl, rfl⟩
  · rw [getD_set_ne _ _ _ _ hji]
    exact ⟨rfl, rfl⟩

/-- `assignRanks` changes no hand. -/
theorem assignRanks_getD_hand (order : List Nat) (ps : List PlayerState)
    (i : Nat) :
    ((assignRanks ps order).getD i defaultPlayer).hand =
      (ps.getD i defaultPlayer).hand := by
  unfold assignRanks
  generalize order.enum = l
  induction l generalizing ps with
  | nil => rfl
  | cons pr rest ih =>
    simp only [List.foldl_cons]
    rw [ih]
    exact (set_rank_getD ps pr.2 i (some (pr.1 + 1))).1

/-- After the assignment fold, an index untouched by the list keeps its
whole record. -/
theorem assign_fold_getD_not_mem :
    ∀ (l : List (Nat × Nat)) (ps : List PlayerState) (i : Nat),
    (∀ pr ∈ l, pr.2 ≠ i) →
    ((l.foldl (fun acc pr =>
        acc.set pr.2
          { acc.getD pr.2 defaultPlayer with socialRank := some (pr.1 + 1) })
      ps)).getD i defaultPlayer = ps.getD i defaultPlayer := by
  intro l
  induction l with
  | nil => intro ps i _; rfl
  | cons pr rest ih =>
    intro ps i hni
    simp only [List.foldl_cons]
    rw [ih _ _ (fun pr2 h2 => hni pr2 (List.mem_cons_of_mem _ h2)),
      getD_set_ne _ _ _ _ (hni pr (List.mem_cons_self _ _))]

/-- Pointwise effect of the assignment fold on a listed index (indices
pairwise distinct, in range). -/
theorem assign_fold_getD :
    ∀ (l : List (Nat × Nat)) (ps : List PlayerState) (k i : Nat),
    (k, i) ∈ l → (l.map (fun pr => pr.2)).Nodup → i < ps.length →
    ((l.foldl (fun acc pr =>
        acc.set pr.2
          { acc.getD pr.2 defaultPlayer with socialRank := some (pr.1 + 1) })
      ps)).getD i defaultPlayer =
      { ps.getD i defaultPlayer with socialRank := some (k + 1) } := by
  intro l
  induction l with
  | nil => intro ps k i hmem; simp at hmem
  | cons pr rest ih =>
    intro ps k i hmem hnd hi
    have hh : pr.2 ∉ rest.map (fun pr2 => pr2.2) ∧
        (rest.map (fun pr2 => pr2.2)).Nodup := by
      rw [List.map_cons] at hnd
      exact List.nodup_cons.mp hnd
    simp only [List.foldl_cons]
    rcases List.mem_cons.mp hmem with heq | hmr
    · cases heq
      rw [assign_fold_getD_not_mem rest _ i
        (fun pr2 h2 hc => hh.1 (List.mem_map.mpr ⟨pr2, h2, hc⟩))]
      exact getD_set_self _ _ _ hi
    · have hne : pr.2 ≠ i := by
        intro hc
        exact hh.1 (List.mem_map.mpr ⟨(k, i), hmr, hc.symm⟩)
      rw [ih _ k i hmr hh.2 (by simpa using hi), getD_set_ne _ _ _ _ hne]


/-- The staged-return loop never changes the number of players. -/
theorem returnStaged_length : ∀ (debts : List TaxDebt) (ps : List PlayerState),
    (returnStaged ps debts).length = ps.length := by
  intro debts
  induction debts with
  | nil => intro ps; rfl
  | cons d rest ih =>
    intro ps
    unfold returnStaged
    split
    · rw [ih, pushToHand, List.length_set]
    · exact ih ps

/-- C6: `declareRevolution` is rejected exactly when the caller's Jokers in
hand plus Jokers among their own auto-staged tax payment number fewer than
2; on success all staged cards return to their payers, the debts clear and
the caller is recorded; if the caller sits at the worst position of the
full seeding finish order the order is reversed and ranks reassigned
1..N, otherwise every player's social rank is untouched. -/
theorem declareRevolution_spec (G : DalmutiState) (caller : Nat)
    (G2 : DalmutiState)
    (hcall : caller < G.players.length)
    (hdebts : ∀ d ∈ G.taxDebts, d.fromPlayerID < G.players.length)
    (hpayers : (G.taxDebts.map (fun d => d.fromPlayerID)).Nodup)
    (hfo : G.finishOrder.length ≤ G.players.length)
    (hfonodup : G.finishOrder.Nodup)
    (hfoval : ∀ i ∈ G.finishOrder, i < G.players.length) :
    ((∃ s, declareRevolution G caller = .invalid s) ↔
      ((playerAt G caller).hand.filter (fun c => c.rank == 0)).length +
        stagedJokers G caller < 2) ∧
    (declareRevolution G caller = .valid G2 →
      G2.taxDebts = [] ∧
      G2.revolutionDeclaredBy = some caller ∧
      (∀ d ∈ G.taxDebts,
        (playerAt G2 d.fromPlayerID).hand =
          (playerAt G d.fromPlayerID).hand ++ d.offeredCards) ∧
      (¬(G.finishOrder.length = G.players.length ∧
          G.finishOrder.getD (G.players.length - 1) G.players.length = caller) →
        G2.finishOrder = G.finishOrder ∧
        ∀ p, p < G.players.length →
          (playerAt G2 p).socialRank = (playerAt G p).socialRank) ∧
      ((G.finishOrder.length = G.players.length ∧
          G.finishOrder.getD (G.players.length - 1) G.players.length = caller) →
        G2.finishOrder = G.finishOrder.reverse ∧
        G2.isGreaterRevolution = true ∧
        ∀ k, k < G.finishOrder.length →
          (playerAt G2 (G.finishOrder.reverse.getD k 0)).socialRank =
            some (k + 1))) := by
  have hget := get?_players_eq G caller hcall
  have hcondiff : (decide (G.players.length ≤ G.finishOrder.length) &&
      (G.finishOrder.getD (G.players.length - 1) G.players.length == caller))
        = true ↔
      (G.finishOrder.length = G.players.length ∧
        G.finishOrder.getD (G.players.length - 1) G.players.length = caller) := by
    rw [Bool.and_eq_true, decide_eq_true_eq, beq_iff_eq]
    constructor
    · rintro ⟨h1, h2⟩
      exact ⟨Nat.le_antisymm hfo h1, h2⟩
    · rintro ⟨h1, h2⟩
      exact ⟨by omega, h2⟩
  constructor
  · by_cases hj : ((playerAt G caller).hand.filter
        (fun c => c.rank == 0)).length + stagedJokers G caller < 2
    · refine iff_of_true ⟨G, ?_⟩ hj
      simp only [declareRevolution, List.get?_eq_getElem?, hget]
      rw [if_pos hj]
    · refine iff_of_false ?_ hj
      rintro ⟨s, hs⟩
      simp only [declareRevolution, List.get?_eq_getElem?, hget] at hs
      rw [if_neg hj] at hs
      split at hs <;> exact MoveResult.noConfusion hs
  · intro hacc
    simp only [declareRevolution, List.get?_eq_getElem?, hget] at hacc
    by_cases hj : ((playerAt G caller).hand.filter
        (fun c => c.rank == 0)).length + stagedJokers G caller < 2
    · rw [if_pos hj] at hacc
      exact MoveResult.noConfusion hacc
    · rw [if_neg hj] at hacc
      split at hacc
      next hg =>
        cases MoveResult.valid.inj hacc
        have hcond2 := hcondiff.mp hg
        refine ⟨rfl, rfl, ?_, fun hncond => absurd hcond2 hncond, fun _ => ⟨rfl, rfl, ?_⟩⟩
        · intro d hd
          show ((assignRanks (returnStaged G.players G.taxDebts)
            G.finishOrder.reverse).getD d.fromPlayerID defaultPlayer).hand = _
          rw [assignRanks_getD_hand,
            returnStaged_getD G.taxDebts G.players d.fromPlayerID
              (hdebts d hd) hdebts,
            filter_eq_single_of_nodup_key G.taxDebts d hd hpayers]
          simp [playerAt]
        · intro k hk
          have hk2 : k < G.finishOrder.reverse.length := by simpa using hk
          have hrangek : G.finishOrder.reverse.getD k 0 <
              (returnStaged G.players G.taxDebts).length := by
            rw [returnStaged_length]
            refine hfoval _ ?_
            rw [List.getD_eq_getElem _ _ hk2]
            exact List.mem_reverse.mp (List.getElem_mem _)
          show ((assignRanks (returnStaged G.players G.taxDebts)
            G.finishOrder.reverse).getD (G.finishOrder.reverse.getD k 0)
            defaultPlayer).socialRank = _
          unfold assignRanks
          rw [assign_fold_getD G.finishOrder.reverse.enum _ k
            (G.finishOrder.reverse.getD k 0) ?_ ?_ hrangek]
          · rw [List.getD_eq_getElem _ _ hk2]
            have hk3 : k < G.finishOrder.reverse.enum.length := by
              simpa using hk2
            have he : G.finishOrder.reverse.enum[k] =
                (k, G.finishOrder.reverse[k]) := List.getElem_enum _ _ _
            rw [← he]
            exact List.getElem_mem _
          · rw [show (fun pr => pr.2) = (Prod.snd : Nat × Nat → Nat) from rfl,
              List.enum_map_snd]
            exact List.nodup_reverse.mpr hfonodup
      next hg =>
        cases MoveResult.valid.inj hacc
        have hncond := fun hc => hg (hcondiff.mpr hc)
        refine ⟨rfl, rfl, ?_, fun _ => ⟨rfl, ?_⟩, fun hc => absurd hc hncond⟩
        · intro d hd
          show ((returnStaged G.players G.taxDebts).getD d.fromPlayerID
            defaultPlayer).hand = _
          rw [returnStaged_getD G.taxDebts G.players d.fromPlayerID
              (hdebts d hd) hdebts,
            filter_eq_single_of_nodup_key G.taxDebts d hd hpayers]
          simp [playerAt]
        · intro p hp
          show ((returnStaged G.players G.taxDebts).getD p
            defaultPlayer).socialRank = _
          rw [returnStaged_getD G.taxDebts G.players p hp hdebts]
          rfl

/-- C6 witness: a concrete caller holding both Jokers; the revolution is
accepted, clears the (empty) debts and records the caller. -/
theorem declareRevolution_spec_witness :
    exampleGRev2.taxDebts = [] ∧
    exampleGRev2.revolutionDeclaredBy = some 0 :=
  have h := (declareRevolution_spec exampleGRev 0 exampleGRev2 (by decide)
    (by decide) (by decide) (by decide) (by decide) (by decide)).2 (by decide)
  ⟨h.1, h.2.1⟩


/-- On a list sorted by second component, `find?` for "strictly above `wr`"
returns a minimiser among the elements above `wr`. -/
theorem find?_min_of_sorted (l : List (Nat × Nat)) (wr : Nat)
    (hs : l.Pairwise (fun a b => (decide (a.2 ≤ b.2)) = true)) (x : Nat × Nat)
    (hf : l.find? (fun pr => decide (wr < pr.2)) = some x) :
    wr < x.2 ∧ x ∈ l ∧ ∀ y ∈ l, wr < y.2 → x.2 ≤ y.2 := by
  induction l with
  | nil => simp at hf
  | cons a t ih =>
    rw [List.pairwise_cons] at hs
    by_cases ha : wr < a.2
    · rw [List.find?_cons_of_pos _ (by simpa using ha)] at hf
      cases hf
      refine ⟨ha, List.mem_cons_self _ _, ?_⟩
      intro y hy _
      rcases List.mem_cons.mp hy with rfl | hyt
      · exact le_refl _
      · simpa using hs.1 y hyt
    · rw [List.find?_cons_of_neg _ (by simpa using ha)] at hf
      obtain ⟨h1, h2, h3⟩ := ih hs.2 hf
      refine ⟨h1, List.mem_cons_of_mem _ h2, ?_⟩
      intro y hy hyr
      rcases List.mem_cons.mp hy with rfl | hyt
      · exact absurd hyr ha
      · exact h3 y hyt hyr

/-- The head of a list sorted by second component minimises it. -/
theorem head_min_of_sorted (a : Nat × Nat) (t : List (Nat × Nat))
    (hs : (a :: t).Pairwise (fun x y => (decide (x.2 ≤ y.2)) = true)) :
    ∀ y ∈ a :: t, a.2 ≤ y.2 := by
  rw [List.pairwise_cons] at hs
  intro y hy
  rcases List.mem_cons.mp hy with rfl | hyt
  · exact le_refl _
  · simpa using hs.1 y hyt

/-- Members of the (id, rank) list built by `playPhase.turn.endIf` are
exactly the unfinished players paired with their rank. -/
theorem mem_unfinished_pairs (G : DalmutiState) (pr : Nat × Nat) :
    pr ∈ ((List.range G.players.length).filter
      (fun i => !(playerAt G i).finished)).map
      (fun i => (i, (playerAt G i).socialRank.getD 0)) ↔
    (pr.1 < G.players.length ∧ (playerAt G pr.1).finished = false ∧
      pr.2 = (playerAt G pr.1).socialRank.getD 0) := by
  constructor
  · intro h
    obtain ⟨i, hi, hpr⟩ := List.mem_map.mp h
    have hif := List.mem_filter.mp hi
    cases hpr
    exact ⟨by simpa using hif.1, by simpa using hif.2, rfl⟩
  · rintro ⟨h1, h2, h3⟩
    refine List.mem_map.mpr ⟨pr.1,
      List.mem_filter.mpr ⟨by simpa using h1, by simp [h2]⟩, ?_⟩
    cases pr with
    | mk a b => simpa using h3.symm

/-- C3: when among unfinished players everyone but the last player to play
has passed, `markTrickWonIfComplete` raises the completion signal,
`turn.onBegin` clears the trick and pass set exactly when that signal is up
(never otherwise), and `turn.endIf` ends the trick: the last player to play
leads next, except when they are finished — then the lead goes to the
unfinished player with the smallest rank number strictly above the winner's,
wrapping to the smallest-ranked unfinished player when none is above. -/
theorem trick_completion_spec (G : DalmutiState) (t : Trick) (lp : Nat)
    (ht : G.currentTrick = some t)
    (hlp : G.lastPlayerToPlay = some lp)
    (hcomplete : ∀ i, i < G.players.length →
      (playerAt G i).finished = false → i ≠ lp → i ∈ G.passedPlayers) :
    markTrickWonIfComplete G = { G with pendingNewTrick := true } ∧
    (G.pendingNewTrick = true →
      playTurnOnBegin G = { G with
        currentTrick := none
        passedPlayers := []
        pendingNewTrick := false }) ∧
    (G.pendingNewTrick = false → playTurnOnBegin G = G) ∧
    (∃ L, playTurnEndIf G = some L ∧
      ((playerAt G lp).finished = false → L = lp) ∧
      ((playerAt G lp).finished = true →
        (∃ j, j < G.players.length ∧ (playerAt G j).finished = false) →
        (L < G.players.length ∧ (playerAt G L).finished = false ∧
          (∀ j, j < G.players.length → (playerAt G j).finished = false →
            (playerAt G lp).socialRank.getD 0 < (playerAt G j).socialRank.getD 0 →
            (playerAt G L).socialRank.getD 0 ≤ (playerAt G j).socialRank.getD 0) ∧
          ((∃ j, j < G.players.length ∧ (playerAt G j).finished = false ∧
            (playerAt G lp).socialRank.getD 0 < (playerAt G j).socialRank.getD 0) →
            (playerAt G lp).socialRank.getD 0 < (playerAt G L).socialRank.getD 0) ∧
          ((¬∃ j, j < G.players.length ∧ (playerAt G j).finished = false ∧
            (playerAt G lp).socialRank.getD 0 < (playerAt G j).socialRank.getD 0) →
            ∀ j, j < G.players.length → (playerAt G j).finished = false →
              (playerAt G L).socialRank.getD 0 ≤ (playerAt G j).socialRank.getD 0)))) := by
  have hstill1 : ((List.range G.players.length).filter
      (fun i => !(playerAt G i).finished)).filter
      (fun i => i != lp && !(G.passedPlayers.contains i)) = [] := by
    refine List.filter_eq_nil_iff.mpr ?_
    intro i hi
    have hif := List.mem_filter.mp hi
    have hi1 : i < G.players.length := by simpa using hif.1
    have hi2 : (playerAt G i).finished = false := by simpa using hif.2
    simp only [Bool.and_eq_true, bne_iff_ne, Bool.not_eq_true']
    rintro ⟨h1, h2⟩
    exact absurd (hcomplete i hi1 hi2 h1) (by simpa using h2)
  have hstill2 : ((List.range G.players.length).filter
      (fun i => !(playerAt G i).finished)).filter
      (fun i => !((some lp : Option Nat) == some i) && !(G.passedPlayers.contains i))
      = [] := by
    refine List.filter_eq_nil_iff.mpr ?_
    intro i hi
    have hif := List.mem_filter.mp hi
    have hi1 : i < G.players.length := by simpa using hif.1
    have hi2 : (playerAt G i).finished = false := by simpa using hif.2
    simp only [Bool.and_eq_true, Bool.not_eq_true']
    rintro ⟨h1, h2⟩
    have h1b : i ≠ lp := by
      intro hc
      subst hc
      simp at h1
    exact absurd (hcomplete i hi1 hi2 h1b) (by simpa using h2)
  refine ⟨?_, ?_, ?_, ?_⟩
  · unfold markTrickWonIfComplete
    rw [ht, hlp]
    simp only [hstill1, List.length_nil, if_true, if_pos rfl]
  · intro hp
    simp [playTurnOnBegin, hp]
  · intro hp
    simp [playTurnOnBegin, hp]
  · have hsorted : ((((List.range G.players.length).filter
        (fun i => !(playerAt G i).finished)).map
        (fun i => (i, (playerAt G i).socialRank.getD 0))).mergeSort
        (fun a b => decide (a.2 ≤ b.2))).Pairwise
        (fun a b => (decide (a.2 ≤ b.2)) = true) :=
      List.sorted_mergeSort
        (by intro a b c h1 h2; simp only [decide_eq_true_eq] at *; omega)
        (by intro a b; simp only [Bool.or_eq_true, decide_eq_true_eq]; omega) _
    have hperm : ((((List.range G.players.length).filter
        (fun i => !(playerAt G i).finished)).map
        (fun i => (i, (playerAt G i).socialRank.getD 0))).mergeSort
        (fun a b => decide (a.2 ≤ b.2))).Perm (((List.range G.players.length).filter
        (fun i => !(playerAt G i).finished)).map
        (fun i => (i, (playerAt G i).socialRank.getD 0))) :=
      List.mergeSort_perm _ _
    by_cases hfin : (playerAt G lp).finished = true
    · by_cases hex : ∃ j, j < G.players.length ∧ (playerAt G j).finished = false
      · have hULne : (((List.range G.players.length).filter
        (fun i => !(playerAt G i).finished)).map
        (fun i => (i, (playerAt G i).socialRank.getD 0))) ≠ [] := by
          obtain ⟨j, hj1, hj2⟩ := hex
          intro hnil
          have hmem : ((j, (playerAt G j).socialRank.getD 0) : Nat × Nat) ∈ (((List.range G.players.length).filter
        (fun i => !(playerAt G i).finished)).map
        (fun i => (i, (playerAt G i).socialRank.getD 0))) :=
            (mem_unfinished_pairs G _).mpr ⟨hj1, hj2, rfl⟩
          rw [hnil] at hmem
          simp at hmem
        have hSLlen : 0 < ((((List.range G.players.length).filter
        (fun i => !(playerAt G i).finished)).map
        (fun i => (i, (playerAt G i).socialRank.getD 0))).mergeSort
            (fun a b => decide (a.2 ≤ b.2))).length := by
          rw [hperm.length_eq]
          exact List.length_pos.mpr hULne
        cases hfind : ((((List.range G.players.length).filter
        (fun i => !(playerAt G i).finished)).map
        (fun i => (i, (playerAt G i).socialRank.getD 0))).mergeSort (fun a b => decide (a.2 ≤ b.2))).find?
            (fun pr => decide ((playerAt G lp).socialRank.getD 0 < pr.2)) with
        | some pr =>
          have hend : playTurnEndIf G = some pr.1 := by
            unfold playTurnEndIf
            rw [ht]
            simp only [hlp, hstill2, List.length_nil, if_true, if_pos rfl, hfin,
              if_pos hSLlen, hfind]
          obtain ⟨hwr, hmemS, hmin⟩ :=
            find?_min_of_sorted _ _ hsorted pr hfind
          obtain ⟨hL1, hL2, hL3⟩ :=
            (mem_unfinished_pairs G pr).mp (hperm.mem_iff.mp hmemS)
          refine ⟨pr.1, hend, fun hc => absurd hfin (by simp [hc]),
            fun _ _ => ⟨hL1, hL2, ?_, ?_, ?_⟩⟩
          · intro j hj1 hj2 hj3
            have hjS : ((j, (playerAt G j).socialRank.getD 0) : Nat × Nat) ∈
                (((List.range G.players.length).filter
        (fun i => !(playerAt G i).finished)).map
        (fun i => (i, (playerAt G i).socialRank.getD 0))).mergeSort (fun a b => decide (a.2 ≤ b.2)) :=
              hperm.mem_iff.mpr ((mem_unfinished_pairs G _).mpr ⟨hj1, hj2, rfl⟩)
            have := hmin _ hjS (by simpa using hj3)
            rw [← hL3]
            exact this
          · intro _
            rw [← hL3]
            exact hwr
          · intro hnex
            refine absurd ⟨pr.1, hL1, hL2, ?_⟩ hnex
            rw [← hL3]
            exact hwr
        | none =>
          cases hSL : (((List.range G.players.length).filter
        (fun i => !(playerAt G i).finished)).map
        (fun i => (i, (playerAt G i).socialRank.getD 0))).mergeSort (fun a b => decide (a.2 ≤ b.2)) with
          | nil =>
            rw [hSL] at hSLlen
            simp at hSLlen
          | cons a rest =>
            have hend : playTurnEndIf G = some a.1 := by
              unfold playTurnEndIf
              rw [ht]
              have hfind2 := hfind
              rw [hSL] at hfind2
              simp only [hlp, hstill2, List.length_nil, if_true, if_pos rfl, hfin, hSL]
              simp [hfind2]
            have hnone := List.find?_eq_none.mp hfind
            have hnex : ¬∃ j, j < G.players.length ∧
                (playerAt G j).finished = false ∧ (playerAt G lp).socialRank.getD 0 < (playerAt G j).socialRank.getD 0 := by
              rintro ⟨j, hj1, hj2, hj3⟩
              have hjS : ((j, (playerAt G j).socialRank.getD 0) : Nat × Nat) ∈
                  (((List.range G.players.length).filter
        (fun i => !(playerAt G i).finished)).map
        (fun i => (i, (playerAt G i).socialRank.getD 0))).mergeSort (fun a b => decide (a.2 ≤ b.2)) :=
                hperm.mem_iff.mpr ((mem_unfinished_pairs G _).mpr ⟨hj1, hj2, rfl⟩)
              have hx := hnone _ hjS
              simp only [decide_eq_true_eq] at hx
              exact hx hj3
            have haU : a ∈ (((List.range G.players.length).filter
        (fun i => !(playerAt G i).finished)).map
        (fun i => (i, (playerAt G i).socialRank.getD 0))) := by
              refine hperm.mem_iff.mp ?_
              rw [hSL]
              exact List.mem_cons_self _ _
            obtain ⟨hL1, hL2, hL3⟩ := (mem_unfinished_pairs G a).mp haU
            have hamin : ∀ y ∈ (((List.range G.players.length).filter
        (fun i => !(playerAt G i).finished)).map
        (fun i => (i, (playerAt G i).socialRank.getD 0))).mergeSort
                (fun a b => decide (a.2 ≤ b.2)), a.2 ≤ y.2 := by
              rw [hSL]
              rw [hSL] at hsorted
              exact head_min_of_sorted a rest hsorted
            refine ⟨a.1, hend, fun hc => absurd hfin (by simp [hc]),
              fun _ _ => ⟨hL1, hL2, ?_, ?_, ?_⟩⟩
            · intro j hj1 hj2 _
              have hjS : ((j, (playerAt G j).socialRank.getD 0) : Nat × Nat) ∈
                  (((List.range G.players.length).filter
        (fun i => !(playerAt G i).finished)).map
        (fun i => (i, (playerAt G i).socialRank.getD 0))).mergeSort (fun a b => decide (a.2 ≤ b.2)) :=
                hperm.mem_iff.mpr ((mem_unfinished_pairs G _).mpr ⟨hj1, hj2, rfl⟩)
              have := hamin _ hjS
              rw [← hL3]
              exact this
            · intro hexa
              exact absurd hexa hnex
            · intro _ j hj1 hj2
              have hjS : ((j, (playerAt G j).socialRank.getD 0) : Nat × Nat) ∈
                  (((List.range G.players.length).filter
        (fun i => !(playerAt G i).finished)).map
        (fun i => (i, (playerAt G i).socialRank.getD 0))).mergeSort (fun a b => decide (a.2 ≤ b.2)) :=
                hperm.mem_iff.mpr ((mem_unfinished_pairs G _).mpr ⟨hj1, hj2, rfl⟩)
              have := hamin _ hjS
              rw [← hL3]
              exact this
      · have hULnil : (((List.range G.players.length).filter
        (fun i => !(playerAt G i).finished)).map
        (fun i => (i, (playerAt G i).socialRank.getD 0))) = [] := by
          by_contra hne
          obtain ⟨pr, hpr⟩ := List.exists_mem_of_ne_nil _ hne
          obtain ⟨h1, h2, _⟩ := (mem_unfinished_pairs G pr).mp hpr
          exact hex ⟨pr.1, h1, h2⟩
        have hSLnil : (((List.range G.players.length).filter
        (fun i => !(playerAt G i).finished)).map
        (fun i => (i, (playerAt G i).socialRank.getD 0))).mergeSort (fun a b => decide (a.2 ≤ b.2)) = [] :=
          List.Perm.eq_nil (hULnil ▸ hperm)
        have hend : playTurnEndIf G = some lp := by
          unfold playTurnEndIf
          rw [ht]
          simp only [hlp, hstill2, List.length_nil, if_true, if_pos rfl, hfin, hSLnil]
          simp
        exact ⟨lp, hend, fun _ => rfl, fun _ hexj => absurd hexj hex⟩
    · have hfin2 : (playerAt G lp).finished = false := by
        simpa using hfin
      have hend : playTurnEndIf G = some lp := by
        unfold playTurnEndIf
        rw [ht]
        simp only [hlp, hstill2, List.length_nil, if_true, if_pos rfl, hfin2]
        simp
      exact ⟨lp, hend, fun _ => rfl, fun hf => absurd hf hfin⟩


theorem trick_completion_spec_witness :
    markTrickWonIfComplete exampleGTrick =
      { exampleGTrick with pendingNewTrick := true } ∧
    playTurnOnBegin exampleGTrick = { exampleGTrick with
      currentTrick := none
      passedPlayers := []
      pendingNewTrick := false } ∧
    playTurnEndIf exampleGTrick = some 0 := by
  obtain ⟨h1, h2, _, L, hL, hlp, _⟩ :=
    trick_completion_spec exampleGTrick ⟨[⟨5, "a"⟩], 5, 1, 0⟩ 0
      (by decide) (by decide) (by decide)
  exact ⟨h1, h2 rfl, by rw [hL, hlp (by decide)]⟩


/-- Length is preserved by the round-robin dealing fold. -/
theorem pushFold_length (n : Nat) (l : List (Nat × Card)) :
    ∀ ps : List PlayerState,
    (l.foldl (fun acc pr => pushToHand acc (pr.1 % n) [pr.2]) ps).length =
      ps.length := by
  induction l with
  | nil => intro ps; rfl
  | cons pr rest ih =>
    intro ps
    simp only [List.foldl_cons]
    rw [ih]
    simp [pushToHand]

/-- Pointwise effect of the dealing fold: player `i` receives, in order, the
cards whose deal position is congruent to `i` modulo `n`. -/
theorem pushFold_getD_hand (n : Nat) (l : List (Nat × Card)) :
    ∀ (ps : List PlayerState) (i : Nat), i < ps.length →
    ((l.foldl (fun acc pr => pushToHand acc (pr.1 % n) [pr.2]) ps).getD i
        defaultPlayer).hand =
      (ps.getD i defaultPlayer).hand ++
        (l.filter (fun pr => pr.1 % n == i)).map (fun pr => pr.2) := by
  induction l with
  | nil => intro ps i hi; simp
  | cons pr rest ih =>
    intro ps i hi
    simp only [List.foldl_cons]
    rw [ih (pushToHand ps (pr.1 % n) [pr.2]) i
      (by unfold pushToHand; rw [List.length_set]; exact hi)]
    by_cases hpi : pr.1 % n = i
    · rw [List.filter_cons_of_pos (by simpa using hpi), List.map_cons]
      unfold pushToHand
      rw [hpi, getD_set_self _ _ _ hi]
      simp
    · rw [List.filter_cons_of_neg (by simpa using hpi)]
      unfold pushToHand
      rw [getD_set_ne _ _ _ _ hpi]

/-- Dealing preserves the player count. -/
theorem dealDeck_length (ps : List PlayerState) (n : Nat) (deck : List Card) :
    (dealDeck ps n deck).length = ps.length :=
  pushFold_length n deck.enum ps

/-- The hand dealt to player `i`: the prior hand followed by the deck cards
at positions congruent to `i` modulo `n`. -/
theorem dealDeck_getD_hand (ps : List PlayerState) (n : Nat) (deck : List Card)
    (i : Nat) (hi : i < ps.length) :
    ((dealDeck ps n deck).getD i defaultPlayer).hand =
      (ps.getD i defaultPlayer).hand ++
        (deck.enum.filter (fun pr => pr.1 % n == i)).map (fun pr => pr.2) :=
  pushFold_getD_hand n deck.enum ps i hi

/-- Clearing hands preserves the player count. -/
theorem clearHands_length (ps : List PlayerState) :
    (clearHands ps).length = ps.length :=
  List.length_map ps _

/-- Pointwise effect of clearing hands. -/
theorem clearHands_getD (ps : List PlayerState) (i : Nat)
    (hi : i < ps.length) :
    (clearHands ps).getD i defaultPlayer =
      { ps.getD i defaultPlayer with hand := [] } := by
  unfold clearHands
  rw [List.getD_eq_getElem _ _ (by simpa using hi),
    List.getD_eq_getElem _ _ hi, List.getElem_map]

/-- Rank assignment preserves the player count. -/
theorem assignRanks_length (order : List Nat) (ps : List PlayerState) :
    (assignRanks ps order).length = ps.length := by
  unfold assignRanks
  generalize order.enum = l
  induction l generalizing ps with
  | nil => rfl
  | cons pr rest ih =>
    simp only [List.foldl_cons]
    rw [ih, List.length_set]

/-- A freshly dealt hand inherits distinct card ids from the deck. -/
theorem dealt_hand_ids_nodup (n : Nat) (deck : List Card)
    (ps : List PlayerState) (i : Nat) (hi : i < ps.length)
    (hids : (deck.map (fun c => c.id)).Nodup) :
    (((dealDeck (clearHands ps) n deck).getD i defaultPlayer).hand.map
      (fun c => c.id)).Nodup := by
  rw [dealDeck_getD_hand (clearHands ps) n deck i
      (by rw [clearHands_length]; exact hi),
    clearHands_getD ps i hi]
  simp only [List.nil_append]
  have h1 : ((deck.enum.filter (fun pr => pr.1 % n == i)).map
      (fun pr => pr.2)).Sublist deck := by
    have hs : (deck.enum.filter (fun pr => pr.1 % n == i)).Sublist deck.enum :=
      List.filter_sublist _
    have h2 := hs.map (fun pr : Nat × Card => pr.2)
    have h3 : deck.enum.map (fun pr : Nat × Card => pr.2) = deck :=
      List.enum_map_snd deck
    rw [h3] at h2
    exact h2
  exact List.Nodup.sublist (h1.map (fun c => c.id)) hids

/-- The tax stage takes `min count handSize` cards. -/
theorem stage_best_length (H : List Card) (c : Nat) :
    ((H.mergeSort taxLe).take c).length = min c H.length := by
  rw [List.length_take, (List.mergeSort_perm H taxLe).length_eq]

/-- In a tax-sorted hand, every taken card weakly precedes every dropped
card in tax rank. -/
theorem stage_sorted_pairs (H : List Card) (c : Nat) :
    ∀ x ∈ (H.mergeSort taxLe).take c,
    ∀ y ∈ (H.mergeSort taxLe).drop c, taxRank x ≤ taxRank y := by
  have hsorted : (H.mergeSort taxLe).Pairwise (fun a b => taxLe a b = true) :=
    List.sorted_mergeSort
      (by
        intro a b c h1 h2
        simp only [taxLe, decide_eq_true_eq] at *
        exact Nat.le_trans h1 h2)
      (by
        intro a b
        simp only [taxLe, Bool.or_eq_true, decide_eq_true_eq]
        exact Nat.le_total _ _)
      H
  rw [← List.take_append_drop c (H.mergeSort taxLe)] at hsorted
  intro x hx y hy
  have h := (List.pairwise_append.mp hsorted).2.2 x hx y hy
  simpa [taxLe] using h

/-- A card kept by the staging filter lies in the dropped part of the
tax-sorted hand. -/
theorem stage_kept_mem (H : List Card) (c : Nat) (y : Card)
    (hy : y ∈ (H.filter (fun z => !((((H.mergeSort taxLe).take c).map (fun w => w.id)).contains z.id)))) :
    y ∈ (H.mergeSort taxLe).drop c := by
  have h1 := List.mem_filter.mp hy
  have hyH : y ∈ H.mergeSort taxLe :=
    (List.mergeSort_perm H taxLe).mem_iff.mpr h1.1
  rw [← List.take_append_drop c (H.mergeSort taxLe)] at hyH
  rcases List.mem_append.mp hyH with h | h
  · exfalso
    have hid : y.id ∈ ((H.mergeSort taxLe).take c).map (fun w => w.id) :=
      List.mem_map_of_mem _ h
    have h2 := h1.2
    simp only [Bool.not_eq_true'] at h2
    have h3 : y.id ∉ ((H.mergeSort taxLe).take c).map (fun w => w.id) := by
      simpa using h2
    exact h3 hid
  · exact h

/-- Every staged card is tax-ranked at or below every kept card. -/
theorem stage_min (H : List Card) (c : Nat) :
    ∀ x ∈ (H.mergeSort taxLe).take c,
    ∀ y ∈ (H.filter (fun z => !((((H.mergeSort taxLe).take c).map (fun w => w.id)).contains z.id))),
    taxRank x ≤ taxRank y := by
  intro x hx y hy
  exact stage_sorted_pairs H c x hx y (stage_kept_mem H c y hy)

/-- With distinct ids, staged plus kept cards permute the original hand. -/
theorem stage_perm (H : List Card) (c : Nat)
    (hnd : (H.map (fun x => x.id)).Nodup) :
    (((H.mergeSort taxLe).take c) ++
      (H.filter (fun z => !((((H.mergeSort taxLe).take c).map (fun w => w.id)).contains z.id)))).Perm H := by
  have hperm := List.mergeSort_perm H taxLe
  have hndH : H.Nodup := hnd.of_map
  have hndS : (H.mergeSort taxLe).Nodup := hperm.nodup_iff.mpr hndH
  have hndT : ((H.mergeSort taxLe).take c).Nodup :=
    List.Nodup.sublist (List.take_sublist c _) hndS
  have hA : (H.filter (fun z =>
      ((((H.mergeSort taxLe).take c).map (fun w => w.id)).contains z.id))).Perm
      ((H.mergeSort taxLe).take c) := by
    refine (List.perm_ext_iff_of_nodup (hndH.filter _) hndT).mpr ?_
    intro x
    constructor
    · intro hx
      have h1 := List.mem_filter.mp hx
      have hid : x.id ∈ ((H.mergeSort taxLe).take c).map (fun w => w.id) := by
        simpa using h1.2
      obtain ⟨y, hy, hyid⟩ := List.mem_map.mp hid
      have hyH : y ∈ H := hperm.mem_iff.mp (List.mem_of_mem_take hy)
      have hxy : y = x := List.inj_on_of_nodup_map hnd hyH h1.1 hyid
      rw [← hxy]
      exact hy
    · intro hx
      refine List.mem_filter.mpr
        ⟨hperm.mem_iff.mp (List.mem_of_mem_take hx), ?_⟩
      have hid : x.id ∈ ((H.mergeSort taxLe).take c).map (fun w => w.id) :=
        List.mem_map_of_mem _ hx
      simpa using hid
  have hB := List.filter_append_perm (fun z =>
    ((((H.mergeSort taxLe).take c).map (fun w => w.id)).contains z.id)) H
  exact (hA.symm.append_right _).trans hB

/-- Unfolding equation for one staging step. -/
theorem stageDebts_cons (ps : List PlayerState) (d : TaxDebt)
    (rest : List TaxDebt) :
    stageDebts ps (d :: rest) =
      ((stageDebts (ps.set d.fromPlayerID { (ps.getD d.fromPlayerID defaultPlayer) with hand := ((ps.getD d.fromPlayerID defaultPlayer).hand.filter (fun x => !(((((ps.getD d.fromPlayerID defaultPlayer).hand.mergeSort taxLe).take d.count).map (fun y => y.id)).contains x.id))) }) rest).1,
        { d with offeredCards := (((ps.getD d.fromPlayerID defaultPlayer).hand.mergeSort taxLe).take d.count) } ::
          (stageDebts (ps.set d.fromPlayerID { (ps.getD d.fromPlayerID defaultPlayer) with hand := ((ps.getD d.fromPlayerID defaultPlayer).hand.filter (fun x => !(((((ps.getD d.fromPlayerID defaultPlayer).hand.mergeSort taxLe).take d.count).map (fun y => y.id)).contains x.id))) }) rest).2) := rfl

/-- Staging preserves the player count. -/
theorem stageDebts_length : ∀ (ds : List TaxDebt) (ps : List PlayerState),
    (stageDebts ps ds).1.length = ps.length
  | [], _ => rfl
  | d :: rest, ps => by
    rw [stageDebts_cons, stageDebts_length rest _, List.length_set]

/-- Staging preserves each debt\'s endpoints and count, in order. -/
theorem stageDebts_snd_trip : ∀ (ds : List TaxDebt) (ps : List PlayerState),
    (stageDebts ps ds).2.map (fun d => (d.fromPlayerID, d.toPlayerID, d.count))
      = ds.map (fun d => (d.fromPlayerID, d.toPlayerID, d.count))
  | [], _ => rfl
  | d :: rest, ps => by
    rw [stageDebts_cons, List.map_cons, List.map_cons,
      stageDebts_snd_trip rest _]


/-- Staging leaves untouched every player who owes no debt, and for each
debt stages exactly the tax-sorted prefix of the payer\'s hand. -/
theorem stageDebts_spec : ∀ (ds : List TaxDebt) (ps : List PlayerState),
    (ds.map (fun d => d.fromPlayerID)).Nodup →
    (∀ d ∈ ds, d.fromPlayerID < ps.length) →
    (∀ i, i < ps.length → i ∉ ds.map (fun d => d.fromPlayerID) →
      (stageDebts ps ds).1.getD i defaultPlayer = ps.getD i defaultPlayer) ∧
    (∀ e ∈ (stageDebts ps ds).2, ∃ d ∈ ds,
      e.fromPlayerID = d.fromPlayerID ∧ e.toPlayerID = d.toPlayerID ∧
      e.count = d.count ∧
      e.offeredCards = (((ps.getD d.fromPlayerID defaultPlayer).hand.mergeSort taxLe).take d.count) ∧
      ((stageDebts ps ds).1.getD d.fromPlayerID defaultPlayer).hand =
        ((ps.getD d.fromPlayerID defaultPlayer).hand.filter (fun x => !(((((ps.getD d.fromPlayerID defaultPlayer).hand.mergeSort taxLe).take d.count).map (fun y => y.id)).contains x.id))))
  | [], ps, _, _ =>
    ⟨fun _ _ _ => rfl, fun e he => absurd he (List.not_mem_nil e)⟩
  | d :: rest, ps, hdist, hlt => by
    rw [List.map_cons] at hdist
    obtain ⟨hdd, hdist2⟩ := List.nodup_cons.mp hdist
    have hlt0 : d.fromPlayerID < ps.length := hlt d (List.mem_cons_self d rest)
    have hlt2 : ∀ e ∈ rest, e.fromPlayerID < ((ps.set d.fromPlayerID { (ps.getD d.fromPlayerID defaultPlayer) with hand := ((ps.getD d.fromPlayerID defaultPlayer).hand.filter (fun x => !(((((ps.getD d.fromPlayerID defaultPlayer).hand.mergeSort taxLe).take d.count).map (fun y => y.id)).contains x.id))) }) : List PlayerState).length := by
      intro e he
      rw [List.length_set]
      exact hlt e (List.mem_cons_of_mem d he)
    obtain ⟨ih1, ih2⟩ := stageDebts_spec rest (ps.set d.fromPlayerID { (ps.getD d.fromPlayerID defaultPlayer) with hand := ((ps.getD d.fromPlayerID defaultPlayer).hand.filter (fun x => !(((((ps.getD d.fromPlayerID defaultPlayer).hand.mergeSort taxLe).take d.count).map (fun y => y.id)).contains x.id))) }) hdist2 hlt2
    rw [stageDebts_cons]
    constructor
    · intro i hi hni
      rw [List.map_cons, List.mem_cons] at hni
      have hni1 : i ≠ d.fromPlayerID ∧ i ∉ rest.map (fun e => e.fromPlayerID) := by
        constructor
        · intro hc
          exact hni (Or.inl hc)
        · intro hc
          exact hni (Or.inr hc)
      rw [ih1 i (by rw [List.length_set]; exact hi) hni1.2]
      exact getD_set_ne _ _ _ _ (Ne.symm hni1.1)
    · intro e he
      rcases List.mem_cons.mp he with h | h
      · refine ⟨d, List.mem_cons_self d rest, ?_, ?_, ?_, ?_, ?_⟩
        · rw [h]
        · rw [h]
        · rw [h]
        · rw [h]
        · rw [ih1 d.fromPlayerID (by rw [List.length_set]; exact hlt0) hdd,
            getD_set_self _ _ _ hlt0]
      · obtain ⟨e0, he0, hf, ht, hc, hoff, hhand⟩ := ih2 e h
        have hne : d.fromPlayerID ≠ e0.fromPlayerID := by
          intro hcq
          exact hdd (hcq ▸ List.mem_map_of_mem (fun x => x.fromPlayerID) he0)
        have hps1 : ((ps.set d.fromPlayerID { (ps.getD d.fromPlayerID defaultPlayer) with hand := ((ps.getD d.fromPlayerID defaultPlayer).hand.filter (fun x => !(((((ps.getD d.fromPlayerID defaultPlayer).hand.mergeSort taxLe).take d.count).map (fun y => y.id)).contains x.id))) }) : List PlayerState).getD e0.fromPlayerID
            defaultPlayer = ps.getD e0.fromPlayerID defaultPlayer :=
          getD_set_ne _ _ _ _ hne
        rw [hps1] at hoff hhand
        exact ⟨e0, List.mem_cons_of_mem d he0, hf, ht, hc, hoff, hhand⟩

/-- Semantic description of the auto-staging pass: each staged debt takes
exactly `min count handSize` cards, staged plus remaining cards permute the
payer\'s prior hand, and every staged card is tax-ranked at or below every
card the payer keeps. -/
theorem staged_tax_spec (ps : List PlayerState) (ds : List TaxDebt)
    (hdist : (ds.map (fun d => d.fromPlayerID)).Nodup)
    (hlt : ∀ d ∈ ds, d.fromPlayerID < ps.length)
    (hnd : ∀ d ∈ ds,
      ((ps.getD d.fromPlayerID defaultPlayer).hand.map (fun c => c.id)).Nodup) :
    ((stageDebts ps ds).2.map (fun d => (d.fromPlayerID, d.toPlayerID, d.count))
      = ds.map (fun d => (d.fromPlayerID, d.toPlayerID, d.count))) ∧
    ∀ e ∈ (stageDebts ps ds).2,
      e.offeredCards.length =
        min e.count (ps.getD e.fromPlayerID defaultPlayer).hand.length ∧
      (e.offeredCards ++
        ((stageDebts ps ds).1.getD e.fromPlayerID defaultPlayer).hand).Perm
        (ps.getD e.fromPlayerID defaultPlayer).hand ∧
      ∀ x ∈ e.offeredCards,
        ∀ y ∈ ((stageDebts ps ds).1.getD e.fromPlayerID defaultPlayer).hand,
        taxRank x ≤ taxRank y := by
  refine ⟨stageDebts_snd_trip ds ps, ?_⟩
  obtain ⟨_, hmem⟩ := stageDebts_spec ds ps hdist hlt
  intro e he
  obtain ⟨d, hd, hf, ht, hc, hoff, hhand⟩ := hmem e he
  refine ⟨?_, ?_, ?_⟩
  · rw [hoff, hf, hc]
    exact stage_best_length (ps.getD d.fromPlayerID defaultPlayer).hand d.count
  · rw [hoff, hf, hhand]
    exact stage_perm (ps.getD d.fromPlayerID defaultPlayer).hand d.count (hnd d hd)
  · rw [hoff, hf, hhand]
    exact stage_min (ps.getD d.fromPlayerID defaultPlayer).hand d.count

/-- The per-player reset at the end of `advanceRound` keeps every hand. -/
theorem reset_map_getD_hand (ps : List PlayerState) (i : Nat)
    (hi : i < ps.length) :
    ((ps.map (fun p => { p with
        finished := false
        finishPosition := (none : Option Nat) })).getD i
      defaultPlayer).hand = (ps.getD i defaultPlayer).hand := by
  rw [List.getD_eq_getElem _ _ (by simpa using hi),
    List.getD_eq_getElem _ _ hi, List.getElem_map]


/-- Unfolding equation for `startGame` called by the room owner. -/
theorem startGame_eq (G : DalmutiState) (n : Nat) (seat ord : List Nat)
    (deck : List Card) :
    startGame G 0 n seat ord deck = MoveResult.valid { G with
      seatOrder := seat
      finishOrder := ord
      players := (stageDebts (dealDeck (clearHands (assignRanks G.players ord)) n deck) ((if 2 ≤ n then [(⟨ord.getD (n - 1) 0, ord.getD 0 0, 2, []⟩ : TaxDebt)] else []) ++ (if 4 ≤ n then [(⟨ord.getD (n - 2) 0, ord.getD 1 0, 1, []⟩ : TaxDebt)] else []))).1
      taxDebts := (stageDebts (dealDeck (clearHands (assignRanks G.players ord)) n deck) ((if 2 ≤ n then [(⟨ord.getD (n - 1) 0, ord.getD 0 0, 2, []⟩ : TaxDebt)] else []) ++ (if 4 ≤ n then [(⟨ord.getD (n - 2) 0, ord.getD 1 0, 1, []⟩ : TaxDebt)] else []))).2 } := rfl

/-- Unfolding equation for `advanceRound`. -/
theorem advanceRound_eq (G : DalmutiState) (n : Nat) (deck : List Card) :
    advanceRound G n deck = MoveResult.valid { G with
      currentTrick := none
      lastPlayerToPlay := none
      passedPlayers := []
      pendingNewTrick := false
      revolutionDeclaredBy := none
      isGreaterRevolution := false
      readyPlayers := []
      players := ((stageDebts (dealDeck (clearHands G.players) n deck) ((if 2 ≤ G.finishOrder.length then [(⟨G.finishOrder.getD (n - 1) 0, G.finishOrder.getD 0 0, 2, []⟩ : TaxDebt)] else []) ++ (if 4 ≤ G.finishOrder.length then [(⟨G.finishOrder.getD (n - 2) 0, G.finishOrder.getD 1 0, 1, []⟩ : TaxDebt)] else []))).1.map (fun p => { p with
        finished := false
        finishPosition := (none : Option Nat) }))
      taxDebts := (stageDebts (dealDeck (clearHands G.players) n deck) ((if 2 ≤ G.finishOrder.length then [(⟨G.finishOrder.getD (n - 1) 0, G.finishOrder.getD 0 0, 2, []⟩ : TaxDebt)] else []) ++ (if 4 ≤ G.finishOrder.length then [(⟨G.finishOrder.getD (n - 2) 0, G.finishOrder.getD 1 0, 1, []⟩ : TaxDebt)] else []))).2
      roundOverDone := true } := rfl


/-- Common consequence of round setup: in a state whose debts and players
come from staging a debt list over freshly dealt players, the debt list has
the two-then-one structure and each payer\'s worst cards were removed from
their hand into the staged offer. -/
theorem round_setup_conc (Gv : DalmutiState) (n : Nat) (ord : List Nat)
    (dealt : List PlayerState) (ds : List TaxDebt)
    (hGt : Gv.taxDebts = (stageDebts dealt ds).2)
    (hph : ∀ f, f < dealt.length →
      (playerAt Gv f).hand =
        ((stageDebts dealt ds).1.getD f defaultPlayer).hand)
    (hdlen : dealt.length = n)
    (hsh : ds.map (fun d => (d.fromPlayerID, d.toPlayerID, d.count)) =
      ((if 2 ≤ n then [(ord.getD (n - 1) 0, ord.getD 0 0, 2)] else []) ++
      (if 4 ≤ n then [(ord.getD (n - 2) 0, ord.getD 1 0, 1)] else [])))
    (hdist : (ds.map (fun d => d.fromPlayerID)).Nodup)
    (hfromlt : ∀ d ∈ ds, d.fromPlayerID < n)
    (hnd : ∀ d ∈ ds,
      (((dealt.getD d.fromPlayerID defaultPlayer).hand).map
        (fun c => c.id)).Nodup) :
    Gv.taxDebts.map (fun d => (d.fromPlayerID, d.toPlayerID, d.count)) =
      ((if 2 ≤ n then [(ord.getD (n - 1) 0, ord.getD 0 0, 2)] else []) ++
      (if 4 ≤ n then [(ord.getD (n - 2) 0, ord.getD 1 0, 1)] else [])) ∧
    ∀ d ∈ Gv.taxDebts,
      (d.offeredCards ++ (playerAt Gv d.fromPlayerID).hand).Perm
        ((dealt.getD d.fromPlayerID defaultPlayer).hand) ∧
      d.offeredCards.length =
        min d.count ((dealt.getD d.fromPlayerID defaultPlayer).hand).length ∧
      ∀ x ∈ d.offeredCards, ∀ y ∈ (playerAt Gv d.fromPlayerID).hand,
        taxRank x ≤ taxRank y := by
  have hlt : ∀ d ∈ ds, d.fromPlayerID < dealt.length := by
    intro d hd
    rw [hdlen]
    exact hfromlt d hd
  obtain ⟨htrip, hmem⟩ := staged_tax_spec dealt ds hdist hlt hnd
  constructor
  · rw [hGt, htrip]
    exact hsh
  · intro d hd
    rw [hGt] at hd
    obtain ⟨hl, hp, hm⟩ := hmem d hd
    have hfmem : d.fromPlayerID ∈ ds.map (fun e => e.fromPlayerID) := by
      have h1 : (stageDebts dealt ds).2.map (fun e => e.fromPlayerID) =
          ds.map (fun e => e.fromPlayerID) := by
        have h2 := congrArg (List.map (fun t : Nat × Nat × Nat => t.1))
          (stageDebts_snd_trip ds dealt)
        simpa [List.map_map, Function.comp] using h2
      rw [← h1]
      exact List.mem_map_of_mem _ hd
    obtain ⟨d0, hd0, hf0⟩ := List.mem_map.mp hfmem
    have hfd : d.fromPlayerID < dealt.length := by
      rw [hdlen, ← hf0]
      exact hfromlt d0 hd0
    rw [hph d.fromPlayerID hfd]
    exact ⟨hp, hl, hm⟩

/-- C2: at round setup (`startGame` for round 1, `advanceRound` for later
rounds), given the seeding order `ord` of length `n` (= the player count,
with distinct in-range entries) and a dealt deck with distinct card ids:
exactly the claimed debts are created — 2 cards from the last player of
`ord` to the first when `n ≥ 2`, plus 1 card from the second-last to the
second when `n ≥ 4`, and no others — and for every debt the payer\'s
`count` numerically-worst cards (Jokers ranked 13 for this selection) are
removed from the freshly dealt hand into the debt\'s `offeredCards` within
the same atomic move, before any player can interact with the tax phase. -/
theorem round_setup_tax_spec (G : DalmutiState) (n : Nat)
    (seatShuffled ord : List Nat) (deck : List Card)
    (hplen : G.players.length = n)
    (hlen : ord.length = n)
    (hord : ord.Nodup)
    (hordlt : ∀ i ∈ ord, i < n)
    (hids : (deck.map (fun c => c.id)).Nodup)
    (hfo : G.finishOrder = ord) :
    (∃ G1, startGame G 0 n seatShuffled ord deck = MoveResult.valid G1 ∧
      (G1.taxDebts.map (fun d => (d.fromPlayerID, d.toPlayerID, d.count)) =
      ((if 2 ≤ n then [(ord.getD (n - 1) 0, ord.getD 0 0, 2)] else []) ++
      (if 4 ≤ n then [(ord.getD (n - 2) 0, ord.getD 1 0, 1)] else [])) ∧
    ∀ d ∈ G1.taxDebts,
      (d.offeredCards ++ (playerAt G1 d.fromPlayerID).hand).Perm
        (((dealDeck (clearHands (assignRanks G.players ord)) n deck).getD d.fromPlayerID defaultPlayer).hand) ∧
      d.offeredCards.length =
        min d.count (((dealDeck (clearHands (assignRanks G.players ord)) n deck).getD d.fromPlayerID defaultPlayer).hand).length ∧
      ∀ x ∈ d.offeredCards, ∀ y ∈ (playerAt G1 d.fromPlayerID).hand,
        taxRank x ≤ taxRank y)) ∧
    (∃ G2, advanceRound G n deck = MoveResult.valid G2 ∧
      (G2.taxDebts.map (fun d => (d.fromPlayerID, d.toPlayerID, d.count)) =
      ((if 2 ≤ n then [(ord.getD (n - 1) 0, ord.getD 0 0, 2)] else []) ++
      (if 4 ≤ n then [(ord.getD (n - 2) 0, ord.getD 1 0, 1)] else [])) ∧
    ∀ d ∈ G2.taxDebts,
      (d.offeredCards ++ (playerAt G2 d.fromPlayerID).hand).Perm
        (((dealDeck (clearHands G.players) n deck).getD d.fromPlayerID defaultPlayer).hand) ∧
      d.offeredCards.length =
        min d.count (((dealDeck (clearHands G.players) n deck).getD d.fromPlayerID defaultPlayer).hand).length ∧
      ∀ x ∈ d.offeredCards, ∀ y ∈ (playerAt G2 d.fromPlayerID).hand,
        taxRank x ≤ taxRank y)) := by
  have hDE : ((if 2 ≤ G.finishOrder.length then [(⟨G.finishOrder.getD (n - 1) 0, G.finishOrder.getD 0 0, 2, []⟩ : TaxDebt)] else []) ++ (if 4 ≤ G.finishOrder.length then [(⟨G.finishOrder.getD (n - 2) 0, G.finishOrder.getD 1 0, 1, []⟩ : TaxDebt)] else [])) = ((if 2 ≤ n then [(⟨ord.getD (n - 1) 0, ord.getD 0 0, 2, []⟩ : TaxDebt)] else []) ++ (if 4 ≤ n then [(⟨ord.getD (n - 2) 0, ord.getD 1 0, 1, []⟩ : TaxDebt)] else [])) := by
    rw [hfo, hlen]
  have hfromord : ∀ d ∈ (((if 2 ≤ n then [(⟨ord.getD (n - 1) 0, ord.getD 0 0, 2, []⟩ : TaxDebt)] else []) ++ (if 4 ≤ n then [(⟨ord.getD (n - 2) 0, ord.getD 1 0, 1, []⟩ : TaxDebt)] else [])) : List TaxDebt), d.fromPlayerID ∈ ord := by
    intro d hd
    rcases List.mem_append.mp hd with h | h
    · rcases Nat.lt_or_ge n 2 with h2 | h2
      · rw [if_neg (by omega)] at h
        exact absurd h (List.not_mem_nil _)
      · rw [if_pos h2] at h
        rw [List.mem_singleton] at h
        rw [h]
        show ord.getD (n - 1) 0 ∈ ord
        rw [List.getD_eq_getElem _ _ (by omega)]
        exact List.getElem_mem _
    · rcases Nat.lt_or_ge n 4 with h4 | h4
      · rw [if_neg (by omega)] at h
        exact absurd h (List.not_mem_nil _)
      · rw [if_pos h4] at h
        rw [List.mem_singleton] at h
        rw [h]
        show ord.getD (n - 2) 0 ∈ ord
        rw [List.getD_eq_getElem _ _ (by omega)]
        exact List.getElem_mem _
  have hfromlt : ∀ d ∈ (((if 2 ≤ n then [(⟨ord.getD (n - 1) 0, ord.getD 0 0, 2, []⟩ : TaxDebt)] else []) ++ (if 4 ≤ n then [(⟨ord.getD (n - 2) 0, ord.getD 1 0, 1, []⟩ : TaxDebt)] else [])) : List TaxDebt), d.fromPlayerID < n :=
    fun d hd => hordlt _ (hfromord d hd)
  have hdist : ((((if 2 ≤ n then [(⟨ord.getD (n - 1) 0, ord.getD 0 0, 2, []⟩ : TaxDebt)] else []) ++ (if 4 ≤ n then [(⟨ord.getD (n - 2) 0, ord.getD 1 0, 1, []⟩ : TaxDebt)] else [])) : List TaxDebt).map
      (fun d => d.fromPlayerID)).Nodup := by
    rcases Nat.lt_or_ge n 2 with h2 | h2
    · rw [if_neg (by omega), if_neg (by omega)]
      simp
    · rcases Nat.lt_or_ge n 4 with h4 | h4
      · rw [if_pos h2, if_neg (by omega)]
        simp
      · rw [if_pos h2, if_pos h4]
        have hne : ord.getD (n - 1) 0 ≠ ord.getD (n - 2) 0 := by
          rw [List.getD_eq_getElem _ _ (by omega),
            List.getD_eq_getElem _ _ (by omega)]
          intro heq
          have h5 := (List.Nodup.getElem_inj_iff hord).mp heq
          omega
        show ([ord.getD (n - 1) 0, ord.getD (n - 2) 0] : List Nat).Nodup
        exact List.nodup_cons.mpr ⟨by simpa using hne, List.nodup_singleton _⟩
  have hsh : (((if 2 ≤ n then [(⟨ord.getD (n - 1) 0, ord.getD 0 0, 2, []⟩ : TaxDebt)] else []) ++ (if 4 ≤ n then [(⟨ord.getD (n - 2) 0, ord.getD 1 0, 1, []⟩ : TaxDebt)] else [])) : List TaxDebt).map
      (fun d => (d.fromPlayerID, d.toPlayerID, d.count)) =
      ((if 2 ≤ n then [(ord.getD (n - 1) 0, ord.getD 0 0, 2)] else []) ++
      (if 4 ≤ n then [(ord.getD (n - 2) 0, ord.getD 1 0, 1)] else [])) := by
    rw [List.map_append]
    congr 1
    · split <;> rfl
    · split <;> rfl
  constructor
  · refine ⟨_, startGame_eq G n seatShuffled ord deck,
      round_setup_conc _ n ord (dealDeck (clearHands (assignRanks G.players ord)) n deck) ((if 2 ≤ n then [(⟨ord.getD (n - 1) 0, ord.getD 0 0, 2, []⟩ : TaxDebt)] else []) ++ (if 4 ≤ n then [(⟨ord.getD (n - 2) 0, ord.getD 1 0, 1, []⟩ : TaxDebt)] else [])) rfl
        (fun f hf => rfl) ?_ hsh hdist hfromlt ?_⟩
    · rw [dealDeck_length, clearHands_length, assignRanks_length, hplen]
    · intro d hd
      exact dealt_hand_ids_nodup n deck (assignRanks G.players ord)
        d.fromPlayerID
        (by rw [assignRanks_length, hplen]; exact hfromlt d hd) hids
  · refine ⟨_, advanceRound_eq G n deck,
      round_setup_conc _ n ord (dealDeck (clearHands G.players) n deck) ((if 2 ≤ G.finishOrder.length then [(⟨G.finishOrder.getD (n - 1) 0, G.finishOrder.getD 0 0, 2, []⟩ : TaxDebt)] else []) ++ (if 4 ≤ G.finishOrder.length then [(⟨G.finishOrder.getD (n - 2) 0, G.finishOrder.getD 1 0, 1, []⟩ : TaxDebt)] else [])) rfl
        (fun f hf => reset_map_getD_hand _ f
          (by rw [stageDebts_length]; exact hf)) ?_ ?_ ?_ ?_ ?_⟩
    · rw [dealDeck_length, clearHands_length, hplen]
    · rw [hDE]
      exact hsh
    · rw [hDE]
      exact hdist
    · intro d hd
      rw [hDE] at hd
      exact hfromlt d hd
    · intro d hd
      rw [hDE] at hd
      exact dealt_hand_ids_nodup n deck G.players d.fromPlayerID
        (by rw [hplen]; exact hfromlt d hd) hids


theorem round_setup_tax_spec_witness :
    ∃ G1, startGame exampleGTax 0 2 [0, 1] [0, 1]
        [⟨3, "d1"⟩, ⟨5, "d2"⟩, ⟨7, "d3"⟩] = MoveResult.valid G1 ∧
      G1.taxDebts.map (fun d => (d.fromPlayerID, d.toPlayerID, d.count)) =
        ((if 2 ≤ 2 then
          [(([0, 1] : List Nat).getD (2 - 1) 0, ([0, 1] : List Nat).getD 0 0, 2)]
        else []) ++
        (if 4 ≤ 2 then
          [(([0, 1] : List Nat).getD (2 - 2) 0, ([0, 1] : List Nat).getD 1 0, 1)]
        else [])) := by
  obtain ⟨⟨G1, hv, hshape, _⟩, _⟩ :=
    round_setup_tax_spec exampleGTax 2 [0, 1] [0, 1]
      [⟨3, "d1"⟩, ⟨5, "d2"⟩, ⟨7, "d3"⟩]
      rfl rfl (by decide) (by decide) (by decide) rfl
  exact ⟨G1, hv, hshape⟩

end Dalmuti
